import Mathlib

/-!
Verification of the protozero-to-text reflective renderer
(`src/trace_processor/util/protozero_to_text.cc`).

The embedding models C++ `std::string` values as `List Char` and raw byte
spans as `List Nat` (each element a byte value `< 256`).  The external
collaborators that are not part of the source under verification — the
wire tokenizer (`protozero::ProtoDecoder`) and the descriptor pool
(`src/trace_processor/util/descriptors.h`) — are modelled from the spec's
collaborator contracts (§2 and §6 of the spec).  `PERFETTO_DCHECK` is a
debug-only assertion that compiles to a no-op in release builds; the
embedding therefore carries a `dcheckOk` flag recording whether every
assertion condition held, while the rendered output is computed exactly as
the release build computes it.  The one exception is the descriptor lookup
at the top of `ProtozeroToTextInternal`: there the code dereferences the
looked-up optional unconditionally after the failed debug-only assertion,
so a failed lookup has no defined result in any build (debug builds abort,
release builds hit undefined behavior).  The embedding marks that branch
`none`, meaning "the execution has no defined result to model" — a
modelling device, not an error value the source itself produces (the
source function returns a plain `std::string` and has no error channel).
Theorems below therefore only ever condition on `some` results, which
coincide exactly with the release build's defined executions.
-/

namespace ProtozeroText

/-- Two's-complement reinterpretation of the low 32 bits, as
`static_cast<int32_t>` of a `uint64_t` does in C++. -/
def toInt32 (n : Nat) : Int :=
  if n % 2 ^ 32 < 2 ^ 31 then ((n % 2 ^ 32 : Nat) : Int)
  else ((n % 2 ^ 32 : Nat) : Int) - 2 ^ 32

/-- Two's-complement reinterpretation of the low 64 bits. -/
def toInt64 (n : Nat) : Int :=
  if n % 2 ^ 64 < 2 ^ 63 then ((n % 2 ^ 64 : Nat) : Int)
  else ((n % 2 ^ 64 : Nat) : Int) - 2 ^ 64

/-- Zig-zag decoding `(n >>> 1) ^ -(n & 1)` of an unsigned varint,
used for `sint32`/`sint64` fields (spec glossary). -/
def zigzagDecode (n : Nat) : Int :=
  if n % 2 = 0 then ((n / 2 : Nat) : Int) else -((n / 2 : Nat) : Int) - 1

/-- Decimal digit characters of `n`, most significant first, prepended to
`acc`.  `fuel` bounds the recursion; any `fuel` with `n < 10 ^ fuel` yields
the full digit string.  Models the decimal rendering of
`std::to_string(uint64_t/int64_t)`. -/
def natDecAux : Nat → Nat → List Char → List Char
  | 0, _, acc => acc
  | fuel + 1, n, acc =>
    if n < 10 then Char.ofNat (48 + n) :: acc
    else natDecAux fuel (n / 10) (Char.ofNat (48 + n % 10) :: acc)

/-- Decimal rendering of a natural number (model of `std::to_string`). -/
def natDec (n : Nat) : List Char := natDecAux (n + 1) n []

/-- Decimal rendering of an integer (model of `std::to_string`). -/
def intDec (i : Int) : List Char :=
  if i < 0 then '-' :: natDec i.natAbs else natDec i.natAbs

/-- Lowercase hexadecimal digit characters of `n`, most significant first,
prepended to `acc`; `fuel` bounds the recursion as in `natDecAux`.
Lowercase because the source formats with `PRIx32` / `PRIx64`
(`printf` conversion `x`). -/
def natHexAux : Nat → Nat → List Char → List Char
  | 0, _, acc => acc
  | fuel + 1, n, acc =>
    if n < 16 then hexDigitChar n :: acc
    else natHexAux fuel (n / 16) (hexDigitChar (n % 16) :: acc)
where
  /-- `printf %x` digit characters: `0`-`9` then lowercase `a`-`f`. -/
  hexDigitChar (d : Nat) : Char :=
    if d < 10 then Char.ofNat (48 + d) else Char.ofNat (87 + d)

/-- Zero-padded lowercase hex of width `w`, the model of
`printf("%0<w>x", n)` for `n < 16 ^ w` (the only way the source uses it:
`w = 8` with a `uint32_t`, `w = 16` with a `uint64_t`). -/
def hexPadLower (w n : Nat) : List Char :=
  let ds := natHexAux w n []
  List.replicate (w - ds.length) '0' ++ ds

/-- Concatenation of a list of character lists (`List.join`, spelled out so
its equations are fully under our control). -/
def concatAll : List (List Char) → List Char
  | [] => []
  | x :: xs => x ++ concatAll xs

/-! ### The String Escaper (`QuoteAndEscapeTextProtoString`) -/

/-- One iteration of the escaping loop's `switch` on a single byte.
In the C++ the byte is a (possibly signed) `char`; the ten special cases
compare against small positive character codes, the printable test
`*it >= 0x20 && *it <= 0x7e` is false for bytes `>= 0x80` whether `char`
is signed (negative values) or unsigned (values above `0x7e`), and the
octal branch first casts to `unsigned char`, so for byte values `0..255`
the byte-as-`Nat` formulation below is exact on every platform. -/
def escapeChar (b : Nat) : List Char :=
  if b = 7 then "\\a".data
  else if b = 8 then "\\b".data
  else if b = 12 then "\\f".data
  else if b = 10 then "\\n".data
  else if b = 13 then "\\r".data
  else if b = 9 then "\\t".data
  else if b = 11 then "\\v".data
  else if b = 92 then "\\\\".data
  else if b = 39 then ['\\', Char.ofNat 39]
  else if b = 34 then "\\\"".data
  else if 0x20 ≤ b ∧ b ≤ 0x7e then [Char.ofNat b]
  else ['\\', Char.ofNat (48 + ((b >>> 6) &&& 3)),
        Char.ofNat (48 + ((b >>> 3) &&& 7)),
        Char.ofNat (48 + (b &&& 7))]

/-- `QuoteAndEscapeTextProtoString`: escape every byte and wrap the result
in double quotes (`'"' + ret + '"'`). -/
def QuoteAndEscapeTextProtoString (raw : List Nat) : List Char :=
  '"' :: concatAll (raw.map escapeChar) ++ ['"']

/-- The escape mapping exactly as claim C1 words it: a ten-entry special
table, verbatim printable ASCII, and otherwise a backslash followed by
three octal digits taken from the top 2 bits, middle 3 bits and low
3 bits.  (Claim-side definition, for the refinement statement.) -/
def specialEscapes : List (Nat × List Char) :=
  [(7, "\\a".data), (8, "\\b".data), (12, "\\f".data), (10, "\\n".data),
   (13, "\\r".data), (9, "\\t".data), (11, "\\v".data),
   (92, "\\\\".data), (39, ['\\', Char.ofNat 39]), (34, "\\\"".data)]

/-- Claim C1's byte mapping (claim-side definition). -/
def specEscapeByte (b : Nat) : List Char :=
  match specialEscapes.find? (fun p => p.1 == b) with
  | some p => p.2
  | none =>
    if 0x20 ≤ b ∧ b ≤ 0x7e then [Char.ofNat b]
    else '\\' :: [Char.ofNat (48 + b / 64), Char.ofNat (48 + b / 8 % 8),
                  Char.ofNat (48 + b % 8)]

set_option maxRecDepth 4000 in
theorem escapeChar_eq_spec : ∀ b < 256, escapeChar b = specEscapeByte b := by
  decide

/-! ### The data model (spec §3, collaborator contracts §6)

`FieldDescriptor`, `ProtoDescriptor` and `DescriptorPool` live in
`src/trace_processor/util/descriptors.h`, which is not part of the source
under `src/`.  Modelled from the spec: a pool is a name-indexed collection
of descriptors; a message descriptor maps tag numbers to field
descriptors; an enum descriptor maps integer values to symbolic names;
`FindDescriptorIdx`, `FindFieldByTag` and `FindEnumString` return optional
results. -/

/-- `FieldDescriptorProto` type numbers (`descriptor.proto`). -/
def TYPE_DOUBLE : Nat := 1

def TYPE_FLOAT : Nat := 2

def TYPE_INT64 : Nat := 3

def TYPE_UINT64 : Nat := 4

def TYPE_INT32 : Nat := 5

def TYPE_FIXED64 : Nat := 6

def TYPE_FIXED32 : Nat := 7

def TYPE_BOOL : Nat := 8

def TYPE_STRING : Nat := 9

def TYPE_MESSAGE : Nat := 11

def TYPE_BYTES : Nat := 12

def TYPE_UINT32 : Nat := 13

def TYPE_ENUM : Nat := 14

def TYPE_SFIXED32 : Nat := 15

def TYPE_SFIXED64 : Nat := 16

def TYPE_SINT32 : Nat := 17

def TYPE_SINT64 : Nat := 18

/-- Modelled from the spec: a field descriptor carries the declared name,
the declared proto type number, the extension flag and, for message/enum
fields, the fully-qualified resolved type name. -/
structure FieldDescriptor where
  name : List Char
  type : Nat
  is_extension : Bool
  resolved_type_name : List Char
deriving DecidableEq

/-- Modelled from the spec: a message or enum descriptor; messages carry
fields keyed by tag, enums carry `(value, symbolic name)` pairs. -/
structure ProtoDescriptor where
  full_name : List Char
  fields : List (Nat × FieldDescriptor)
  enum_values : List (Int × List Char)
deriving DecidableEq

/-- `ProtoDescriptor::FindFieldByTag` (modelled from the spec). -/
def ProtoDescriptor.FindFieldByTag (d : ProtoDescriptor) (tag : Nat) :
    Option FieldDescriptor :=
  (d.fields.find? (fun p => p.1 == tag)).map (·.2)

/-- `ProtoDescriptor::FindEnumString` (modelled from the spec). -/
def ProtoDescriptor.FindEnumString (d : ProtoDescriptor) (v : Int) :
    Option (List Char) :=
  (d.enum_values.find? (fun p => p.1 == v)).map (·.2)

/-- Modelled from the spec: an immutable collection of descriptors indexed
by fully-qualified type name. -/
structure DescriptorPool where
  descriptors : List ProtoDescriptor
deriving DecidableEq

/-- `DescriptorPool::FindDescriptorIdx` (modelled from the spec). -/
def DescriptorPool.FindDescriptorIdx (pool : DescriptorPool)
    (ty : List Char) : Option Nat :=
  pool.descriptors.findIdx? (fun d => d.full_name == ty)

/-! ### The wire tokenizer (`protozero::ProtoDecoder`)

External collaborator (spec §2/§6), modelled from the spec: it splits a
byte span into consecutive `(field id, wire type, payload)` records in
stream order, and stops — leaving the remaining bytes unconsumed — when a
record cannot be read completely (truncated varint or payload, invalid
wire type, field id 0). -/

/-- The four protocol-buffer wire types (spec glossary). -/
inductive ProtoWireType where
  | kVarInt
  | kFixed64
  | kLengthDelimited
  | kFixed32
deriving DecidableEq

/-- One wire record (`protozero::Field`): field id, wire type, the 64-bit
integer value (varint / fixed payloads) and the raw byte payload
(length-delimited). -/
structure Field where
  id : Nat
  wire : ProtoWireType
  value : Nat
  payload : List Nat
deriving DecidableEq

/-- `Field::as_uint64`. -/
def Field.as_uint64 (f : Field) : Nat := f.value % 2 ^ 64

/-- `Field::as_uint32` (truncation of the stored 64-bit value). -/
def Field.as_uint32 (f : Field) : Nat := f.value % 2 ^ 32

/-- `Field::as_int32` (`static_cast<int32_t>`). -/
def Field.as_int32 (f : Field) : Int := toInt32 f.value

/-- `Field::as_int64`. -/
def Field.as_int64 (f : Field) : Int := toInt64 f.value

/-- `Field::as_sint32` (zig-zag decode of the 32-bit truncation). -/
def Field.as_sint32 (f : Field) : Int := zigzagDecode (f.value % 2 ^ 32)

/-- `Field::as_sint64` (zig-zag decode of the 64-bit value). -/
def Field.as_sint64 (f : Field) : Int := zigzagDecode (f.value % 2 ^ 64)

/-- `Field::as_bool`. -/
def Field.as_bool (f : Field) : Bool := f.value % 2 ^ 64 != 0

/-- `Field::as_std_string` — the raw payload bytes. -/
def Field.as_std_string (f : Field) : List Nat := f.payload

/-- `Field::as_bytes` — the raw payload bytes. -/
def Field.as_bytes (f : Field) : List Nat := f.payload

/-- Read one base-128 varint: low 7 bits of each byte, little-endian,
continuation while the high bit is set.  Returns the value and the
remaining bytes, or `none` if the span ends inside the varint. -/
def readVarint : List Nat → Option (Nat × List Nat)
  | [] => none
  | b :: rest =>
    if b < 128 then some (b, rest)
    else
      match readVarint rest with
      | none => none
      | some (v, rest2) => some (b % 128 + 128 * v, rest2)

/-- Read `k` bytes as a little-endian unsigned integer. -/
def readLE : Nat → List Nat → Option (Nat × List Nat)
  | 0, bs => some (0, bs)
  | _ + 1, [] => none
  | k + 1, b :: bs =>
    match readLE k bs with
    | none => none
    | some (v, rest) => some (b % 256 + 256 * v, rest)

/-- `ProtoDecoder::ReadField` (modelled from the spec): read the key
varint, split it into field id (`key >> 3`) and wire type (`key & 7`),
then read the payload according to the wire type.  A truncated record, an
unknown wire type, a field id of `0`, or a length-delimited length larger
than the remaining span yields `none` (an invalid field). -/
def ReadField (bs : List Nat) : Option (Field × List Nat) :=
  match readVarint bs with
  | none => none
  | some (key, rest) =>
    let id := key / 8
    let wt := key % 8
    if id = 0 then none
    else if wt = 0 then
      match readVarint rest with
      | none => none
      | some (v, rest2) =>
        some (⟨id, ProtoWireType.kVarInt, v % 2 ^ 64, []⟩, rest2)
    else if wt = 1 then
      match readLE 8 rest with
      | none => none
      | some (v, rest2) =>
        some (⟨id, ProtoWireType.kFixed64, v, []⟩, rest2)
    else if wt = 2 then
      match readVarint rest with
      | none => none
      | some (len, rest2) =>
        if len ≤ rest2.length then
          some (⟨id, ProtoWireType.kLengthDelimited, 0, rest2.take len⟩,
                rest2.drop len)
        else none
    else if wt = 5 then
      match readLE 4 rest with
      | none => none
      | some (v, rest2) =>
        some (⟨id, ProtoWireType.kFixed32, v, []⟩, rest2)
    else none

/-- Fuelled tokenizer loop: read records until `ReadField` fails, also
returning the unconsumed remainder (`ProtoDecoder::bytes_left`). -/
def tokenizeAux : Nat → List Nat → List Field × List Nat
  | 0, bs => ([], bs)
  | fuel + 1, bs =>
    match ReadField bs with
    | none => ([], bs)
    | some (f, rest) =>
      let (fs, left) := tokenizeAux fuel rest
      (f :: fs, left)

/-- `tokenize(bytes)` from the spec's Wire Tokenizer contract: the ordered
record sequence of a byte span plus the leftover bytes.  Every successful
`ReadField` consumes at least the key byte, so `bs.length + 1` steps of
fuel always reach the fixpoint. -/
def tokenize (bs : List Nat) : List Field × List Nat :=
  tokenizeAux (bs.length + 1) bs

/-! ### `std::to_string` on floating-point values

`Field::as_float` / `Field::as_double` reinterpret the fixed-width payload
as an IEEE-754 value; `std::to_string` formats it like `sprintf("%f")`,
i.e. fixed-point notation with exactly six fractional digits.  Every
finite IEEE-754 value is the exact rational `± num / den` with `den` a
power of two, so the formatting is modelled exactly with natural-number
arithmetic. -/

/-- A finite IEEE-754 value as an exact rational `(-1)^neg * num / den`
(`den` a power of two). -/
structure FloatVal where
  neg : Bool
  num : Nat
  den : Nat
deriving DecidableEq

/-- Decode IEEE-754 single precision bits: 1 sign bit, 8 exponent bits
(bias 127), 23 mantissa bits; `none` for infinities and NaNs.
Normal: `(2^23 + m) * 2^e / 2^150`; subnormal: `m / 2^149`. -/
def floatFromBits (bits : Nat) : Option FloatVal :=
  let b := bits % 2 ^ 32
  let s := b / 2 ^ 31
  let e := b / 2 ^ 23 % 2 ^ 8
  let m := b % 2 ^ 23
  if e = 255 then none
  else if e = 0 then some ⟨s = 1, m, 2 ^ 149⟩
  else some ⟨s = 1, (2 ^ 23 + m) * 2 ^ e, 2 ^ 150⟩

/-- Decode IEEE-754 double precision bits: 1 sign bit, 11 exponent bits
(bias 1023), 52 mantissa bits; `none` for infinities and NaNs.
Normal: `(2^52 + m) * 2^e / 2^1075`; subnormal: `m / 2^1074`. -/
def doubleFromBits (bits : Nat) : Option FloatVal :=
  let b := bits % 2 ^ 64
  let s := b / 2 ^ 63
  let e := b / 2 ^ 52 % 2 ^ 11
  let m := b % 2 ^ 52
  if e = 2047 then none
  else if e = 0 then some ⟨s = 1, m, 2 ^ 1074⟩
  else some ⟨s = 1, (2 ^ 52 + m) * 2 ^ e, 2 ^ 1075⟩

/-- Round `num / den` to the nearest integer, ties to even (the IEEE
default rounding used when `printf` rounds the exact binary value to six
decimals). -/
def roundHalfEven (num den : Nat) : Nat :=
  let q := num / den
  let r := num % den
  if 2 * r < den then q
  else if den < 2 * r then q + 1
  else if q % 2 = 0 then q else q + 1

/-- The fractional part of `%f` output: exactly six decimal digits,
zero-padded on the left (`m < 10 ^ 6`; six steps of fuel print every
digit of such an `m`). -/
def frac6 (m : Nat) : List Char :=
  let ds := natDecAux 6 m []
  List.replicate (6 - ds.length) '0' ++ ds

/-- `sprintf("%f", v)` on a finite value: optional minus sign, the integer
part, a dot, and exactly six fractional digits of the correctly rounded
scaled value. -/
def cppFixed6 (v : FloatVal) : List Char :=
  let n := roundHalfEven (v.num * 1000000) v.den
  (if v.neg then ['-'] else []) ++ natDec (n / 1000000) ++
    '.' :: frac6 (n % 1000000)

/-- `std::to_string(float)` applied to the 32 payload bits
(`Field::as_float` composed with the formatter); infinities and NaNs
render as glibc renders them. -/
def cppToStringFloat (bits : Nat) : List Char :=
  match floatFromBits bits with
  | some v => cppFixed6 v
  | none =>
    let b := bits % 2 ^ 32
    (if 2 ^ 31 ≤ b then ['-'] else []) ++
      (if b % 2 ^ 23 = 0 then "inf".data else "nan".data)

/-- `std::to_string(double)` applied to the 64 payload bits. -/
def cppToStringDouble (bits : Nat) : List Char :=
  match doubleFromBits bits with
  | some v => cppFixed6 v
  | none =>
    let b := bits % 2 ^ 64
    (if 2 ^ 63 ≤ b then ['-'] else []) ++
      (if b % 2 ^ 52 = 0 then "inf".data else "nan".data)

/-! ### The Field Renderer -/

/-- The two layout modes (`NewLinesMode`). -/
inductive NewLinesMode where
  | kIncludeNewLines
  | kSkipNewLines
deriving DecidableEq

/-- `FormattedFieldDescriptorName`: extension fields render as
`[perfetto.protos.<name>]` (hardcoded namespace, a documented
limitation), other fields as the plain declared name. -/
def FormattedFieldDescriptorName (fd : FieldDescriptor) : List Char :=
  if fd.is_extension then "[perfetto.protos.".data ++ fd.name ++ [']']
  else fd.name

/-- `PrintVarIntField`: dispatch on `fd ? fd->type() : 0`; the common
fall-through (`break` out of the `switch`) appends
`<field id>: <as_uint64>`. -/
def PrintVarIntField (fd? : Option FieldDescriptor) (f : Field)
    (pool : DescriptorPool) (out : List Char) : List Char :=
  out ++
    match fd? with
    | some fd =>
      if fd.type = TYPE_INT32 then fd.name ++ ": ".data ++ intDec f.as_int32
      else if fd.type = TYPE_SINT32 then
        fd.name ++ ": ".data ++ intDec f.as_sint32
      else if fd.type = TYPE_UINT32 then
        fd.name ++ ": ".data ++ natDec f.as_uint32
      else if fd.type = TYPE_INT64 then
        fd.name ++ ": ".data ++ intDec f.as_int64
      else if fd.type = TYPE_SINT64 then
        fd.name ++ ": ".data ++ intDec f.as_sint64
      else if fd.type = TYPE_UINT64 then
        fd.name ++ ": ".data ++ natDec f.as_uint64
      else if fd.type = TYPE_BOOL then
        fd.name ++ ": ".data ++
          (if f.as_bool then "true".data else "false".data)
      else if fd.type = TYPE_ENUM then
        match pool.FindDescriptorIdx fd.resolved_type_name with
        | none => natDec f.id ++ ": ".data ++ natDec f.as_uint64
        | some idx =>
          match pool.descriptors[idx]? with
          | none => natDec f.id ++ ": ".data ++ natDec f.as_uint64
          | some d =>
            match d.FindEnumString f.as_int32 with
            | none => natDec f.id ++ ": ".data ++ natDec f.as_uint64
            | some s => fd.name ++ ": ".data ++ s
      else natDec f.id ++ ": ".data ++ natDec f.as_uint64
    | none => natDec f.id ++ ": ".data ++ natDec f.as_uint64

/-- `PrintFixed32Field`: `SFIXED32`/`FIXED32`/`FLOAT` use the declared
name; anything else falls back to `<field id>: 0x%08x` (`PRIx32` is the
lowercase conversion). -/
def PrintFixed32Field (fd? : Option FieldDescriptor) (f : Field)
    (out : List Char) : List Char :=
  out ++
    match fd? with
    | some fd =>
      if fd.type = TYPE_SFIXED32 then
        fd.name ++ ": ".data ++ intDec f.as_int32
      else if fd.type = TYPE_FIXED32 then
        fd.name ++ ": ".data ++ natDec f.as_uint32
      else if fd.type = TYPE_FLOAT then
        fd.name ++ ": ".data ++ cppToStringFloat f.as_uint32
      else natDec f.id ++ ": ".data ++ "0x".data ++ hexPadLower 8 f.as_uint32
    | none => natDec f.id ++ ": ".data ++ "0x".data ++ hexPadLower 8 f.as_uint32

/-- `PrintFixed64Field`: `SFIXED64`/`FIXED64`/`DOUBLE` use the declared
name; anything else falls back to `<field id>: 0x%016x` (`PRIx64` is the
lowercase conversion). -/
def PrintFixed64Field (fd? : Option FieldDescriptor) (f : Field)
    (out : List Char) : List Char :=
  out ++
    match fd? with
    | some fd =>
      if fd.type = TYPE_SFIXED64 then
        fd.name ++ ": ".data ++ intDec f.as_int64
      else if fd.type = TYPE_FIXED64 then
        fd.name ++ ": ".data ++ natDec f.as_uint64
      else if fd.type = TYPE_DOUBLE then
        fd.name ++ ": ".data ++ cppToStringDouble f.as_uint64
      else natDec f.id ++ ": ".data ++ "0x".data ++ hexPadLower 16 f.as_uint64
    | none =>
      natDec f.id ++ ": ".data ++ "0x".data ++ hexPadLower 16 f.as_uint64

/-! ### The Message Renderer -/

/-- The per-invocation mutable state threaded through the renderer: the
shared output buffer, the shared indentation string, and the conjunction
of all `PERFETTO_DCHECK` conditions encountered so far (debug-only
assertions: release builds ignore them and keep going). -/
structure RState where
  output : List Char
  indents : List Char
  dcheckOk : Bool
deriving DecidableEq

/-- `IncreaseIndents`: append two spaces. -/
def IncreaseIndents (ind : List Char) : List Char := ind ++ [' ', ' ']

/-- `DecreaseIndents`: erase the last two characters
(`out->erase(out->size() - 2)`); its `PERFETTO_DCHECK(out->size() >= 2)`
is tracked by the caller's `dcheckOk`. -/
def DecreaseIndents (ind : List Char) : List Char :=
  ind.take (ind.length - 2)

/-- The inter-field separator: `"\n" + indents` in multi-line mode,
`" " + indents` in compact mode. -/
def sepStr : NewLinesMode → List Char → List Char
  | NewLinesMode.kIncludeNewLines, ind => '\n' :: ind
  | NewLinesMode.kSkipNewLines, ind => ' ' :: ind

/-- `PrintLengthDelimitedField`.  `recur` is `ProtozeroToTextInternal`
(passed explicitly to break the mutual recursion): for `MESSAGE` fields
the function appends `name: {`, pushes one indent level in multi-line
mode, recurses into the payload, pops the indent and closes the brace. -/
def PrintLengthDelimitedField
    (recur : List Char → List Nat → RState → Option RState)
    (fd? : Option FieldDescriptor) (f : Field) (mode : NewLinesMode)
    (st : RState) : Option RState :=
  match fd? with
  | some fd =>
    if fd.type = TYPE_BYTES ∨ fd.type = TYPE_STRING then
      some { st with
        output := st.output ++ fd.name ++ ": ".data ++
          QuoteAndEscapeTextProtoString f.as_std_string }
    else if fd.type = TYPE_MESSAGE then
      let out1 := st.output ++ FormattedFieldDescriptorName fd ++ ": \x7b".data
      let ind1 :=
        if mode = NewLinesMode.kIncludeNewLines then IncreaseIndents st.indents
        else st.indents
      match recur fd.resolved_type_name f.as_bytes
          { output := out1, indents := ind1, dcheckOk := st.dcheckOk } with
      | none => none
      | some st2 =>
        if mode = NewLinesMode.kIncludeNewLines then
          let ind3 := DecreaseIndents st2.indents
          some { output := st2.output ++ '\n' :: ind3 ++ ['\x7d'],
                 indents := ind3,
                 dcheckOk := st2.dcheckOk && decide (2 ≤ st2.indents.length) }
        else
          some { st2 with output := st2.output ++ " \x7d".data }
    else
      some { st with
        output := st.output ++ natDec f.id ++ ": ".data ++
          QuoteAndEscapeTextProtoString f.as_std_string }
  | none =>
    some { st with
      output := st.output ++ natDec f.id ++ ": ".data ++
        QuoteAndEscapeTextProtoString f.as_std_string }

/-- The `switch (field.type())` in the render loop: dispatch one wire
record to the matching field printer. -/
def renderField (recur : List Char → List Nat → RState → Option RState)
    (pool : DescriptorPool) (fd? : Option FieldDescriptor) (f : Field)
    (mode : NewLinesMode) (st : RState) : Option RState :=
  match f.wire with
  | ProtoWireType.kVarInt =>
    some { st with output := PrintVarIntField fd? f pool st.output }
  | ProtoWireType.kLengthDelimited =>
    PrintLengthDelimitedField recur fd? f mode st
  | ProtoWireType.kFixed32 =>
    some { st with output := PrintFixed32Field fd? f st.output }
  | ProtoWireType.kFixed64 =>
    some { st with output := PrintFixed64Field fd? f st.output }

/-- The record loop of `ProtozeroToTextInternal`: before each field,
append the separator when the output buffer is non-empty and the bare
indentation when it is still empty; then look up the field's descriptor
by tag and dispatch to the field printers. -/
def renderFields (recur : List Char → List Nat → RState → Option RState)
    (pool : DescriptorPool) (desc : ProtoDescriptor) (mode : NewLinesMode) :
    List Field → RState → Option RState
  | [], st => some st
  | f :: fs, st =>
    let out1 :=
      if st.output = [] then st.output ++ st.indents
      else st.output ++ sepStr mode st.indents
    match renderField recur pool (desc.FindFieldByTag f.id) f mode
        { st with output := out1 } with
    | none => none
    | some st2 => renderFields recur pool desc mode fs st2

/-- `ProtozeroToTextInternal`: resolve the type in the pool (the
unchecked dereference after the failed `PERFETTO_DCHECK` has no defined
result in any build, so that branch is marked `none` — "no defined
result", a modelling device rather than an error value the source
produces), tokenize the span, render every record, and record the
full-consumption assertion `PERFETTO_DCHECK(decoder.bytes_left() == 0)`
in `dcheckOk`.  `fuel` bounds the message-nesting depth; the top-level
entry supplies more fuel than any nesting the bytes can encode. -/
def ProtozeroToTextInternal (pool : DescriptorPool) (mode : NewLinesMode) :
    Nat → List Char → List Nat → RState → Option RState
  | 0, _, _, _ => none
  | fuel + 1, ty, protobytes, st =>
    match pool.FindDescriptorIdx ty with
    | none => none
    | some idx =>
      match pool.descriptors[idx]? with
      | none => none
      | some proto_descriptor =>
        let (records, leftover) := tokenize protobytes
        match renderFields (ProtozeroToTextInternal pool mode fuel) pool
            proto_descriptor mode records st with
        | none => none
        | some st2 =>
          some { st2 with dcheckOk := st2.dcheckOk && leftover.isEmpty }

/-- `ProtozeroToText` (pool-supplied overload): build the initial
indentation of `2 * initial_indent_depth` spaces, run the internal
renderer on an empty output buffer and return the accumulated text. -/
def ProtozeroToText (pool : DescriptorPool) (ty : List Char)
    (protobytes : List Nat) (mode : NewLinesMode)
    (initial_indent_depth : Nat) : Option (List Char) :=
  let indent := List.replicate (2 * initial_indent_depth) ' '
  (ProtozeroToTextInternal pool mode (protobytes.length + 1) ty protobytes
      { output := [], indents := indent, dcheckOk := true }).map (·.output)

/-! ### Fragment decomposition (specification side)

For the order/shape claims (C2, C6) the renderer's output is related to a
per-record fragment list: `fieldFrag` is the text one wire record
contributes (separator excluded), `msgFrags` the fragment list of a whole
message span.  These mirror the renderer's recursion structure but speak
about isolated fragments instead of a shared output buffer. -/

/-- The fragment a single record contributes, given the indentation at
its level; `recurFrag` plays the role of `msgFrags` one nesting level
down.  Inside a nested message every field is preceded by the full
separator at the nested indentation, because the shared output buffer is
never empty there. -/
def fieldFrag (recurFrag : List Char → List Nat → List Char →
      Option (List (List Char)))
    (pool : DescriptorPool) (mode : NewLinesMode)
    (fd? : Option FieldDescriptor) (ind : List Char) (f : Field) :
    Option (List Char) :=
  match f.wire with
  | ProtoWireType.kVarInt => some (PrintVarIntField fd? f pool [])
  | ProtoWireType.kFixed32 => some (PrintFixed32Field fd? f [])
  | ProtoWireType.kFixed64 => some (PrintFixed64Field fd? f [])
  | ProtoWireType.kLengthDelimited =>
    match fd? with
    | some fd =>
      if fd.type = TYPE_BYTES ∨ fd.type = TYPE_STRING then
        some (fd.name ++ ": ".data ++
          QuoteAndEscapeTextProtoString f.as_std_string)
      else if fd.type = TYPE_MESSAGE then
        let ind1 :=
          if mode = NewLinesMode.kIncludeNewLines then IncreaseIndents ind
          else ind
        match recurFrag fd.resolved_type_name f.as_bytes ind1 with
        | none => none
        | some frs =>
          some (FormattedFieldDescriptorName fd ++ ": \x7b".data ++
            concatAll (frs.map (fun t => sepStr mode ind1 ++ t)) ++
            (if mode = NewLinesMode.kIncludeNewLines then
              '\n' :: ind ++ ['\x7d'] else " \x7d".data))
      else
        some (natDec f.id ++ ": ".data ++
          QuoteAndEscapeTextProtoString f.as_std_string)
    | none =>
      some (natDec f.id ++ ": ".data ++
        QuoteAndEscapeTextProtoString f.as_std_string)

/-- Fragment list of a record sequence at one message level. -/
def fragsList (recurFrag : List Char → List Nat → List Char →
      Option (List (List Char)))
    (pool : DescriptorPool) (mode : NewLinesMode) (desc : ProtoDescriptor)
    (ind : List Char) : List Field → Option (List (List Char))
  | [] => some []
  | f :: fs =>
    match fieldFrag recurFrag pool mode (desc.FindFieldByTag f.id) ind f with
    | none => none
    | some t =>
      match fragsList recurFrag pool mode desc ind fs with
      | none => none
      | some ts => some (t :: ts)

/-- Fragment list of a message span: one fragment per tokenized record,
in stream order. -/
def msgFrags (pool : DescriptorPool) (mode : NewLinesMode) :
    Nat → List Char → List Nat → List Char → Option (List (List Char))
  | 0, _, _, _ => none
  | fuel + 1, ty, protobytes, ind =>
    match pool.FindDescriptorIdx ty with
    | none => none
    | some idx =>
      match pool.descriptors[idx]? with
      | none => none
      | some desc =>
        fragsList (msgFrags pool mode fuel) pool mode desc ind
          (tokenize protobytes).1

/-! ### Helper lemmas about the digit printers -/

theorem natDecAux_length : ∀ (fuel n : Nat) (acc : List Char),
    n < 10 ^ fuel → (natDecAux fuel n acc).length ≤ fuel + acc.length := by
  intro fuel
  induction fuel with
  | zero => intro n acc h; simp [natDecAux]
  | succ k ih =>
    intro n acc h
    unfold natDecAux
    by_cases hn : n < 10
    · simp [hn]; omega
    · simp only [if_neg hn]
      have hdiv : n / 10 < 10 ^ k := by
        rw [Nat.div_lt_iff_lt_mul (by norm_num)]
        calc n < 10 ^ (k + 1) := h
          _ = 10 ^ k * 10 := by rw [pow_succ]
      have := ih (n / 10) (Char.ofNat (48 + n % 10) :: acc) hdiv
      simp at this ⊢
      omega

theorem natHexAux_length : ∀ (fuel n : Nat) (acc : List Char),
    n < 16 ^ fuel → (natHexAux fuel n acc).length ≤ fuel + acc.length := by
  intro fuel
  induction fuel with
  | zero => intro n acc h; simp [natHexAux]
  | succ k ih =>
    intro n acc h
    unfold natHexAux
    by_cases hn : n < 16
    · simp [hn]; omega
    · simp only [if_neg hn]
      have hdiv : n / 16 < 16 ^ k := by
        rw [Nat.div_lt_iff_lt_mul (by norm_num)]
        calc n < 16 ^ (k + 1) := h
          _ = 16 ^ k * 16 := by rw [pow_succ]
      have := ih (n / 16) (natHexAux.hexDigitChar (n % 16) :: acc) hdiv
      simp at this ⊢
      omega

theorem natHexAux_append : ∀ (fuel n : Nat) (acc : List Char),
    natHexAux fuel n acc = natHexAux fuel n [] ++ acc := by
  intro fuel
  induction fuel with
  | zero => intro n acc; simp [natHexAux]
  | succ k ih =>
    intro n acc
    unfold natHexAux
    by_cases hn : n < 16
    · simp [hn]
    · simp only [if_neg hn]
      rw [ih (n / 16) (natHexAux.hexDigitChar (n % 16) :: acc),
        ih (n / 16) [natHexAux.hexDigitChar (n % 16)]]
      simp

/-- Numeric value of a lowercase hex digit character. -/
def hexCharVal (c : Char) : Nat :=
  if 97 ≤ c.toNat then c.toNat - 87 else c.toNat - 48

/-- Read back a lowercase hex digit string, most significant digit
first (claim-side decoder used to state that the padded hex output
denotes the field's value). -/
def fromHexDigits (ds : List Char) : Nat :=
  ds.foldl (fun a c => 16 * a + hexCharVal c) 0

theorem hexCharVal_hexDigitChar : ∀ d < 16,
    hexCharVal (natHexAux.hexDigitChar d) = d := by decide

theorem fromHexDigits_natHexAux : ∀ (fuel n : Nat), 0 < fuel → n < 16 ^ fuel →
    fromHexDigits (natHexAux fuel n []) = n := by
  intro fuel
  induction fuel with
  | zero => omega
  | succ k ih =>
    intro n _ h
    unfold natHexAux
    by_cases hn : n < 16
    · simp [hn, fromHexDigits, hexCharVal_hexDigitChar n hn]
    · simp only [if_neg hn]
      have hk : 0 < k := by
        by_contra hk0
        have : k = 0 := by omega
        subst this
        simp at h
        omega
      have hdiv : n / 16 < 16 ^ k := by
        rw [Nat.div_lt_iff_lt_mul (by norm_num)]
        calc n < 16 ^ (k + 1) := h
          _ = 16 ^ k * 16 := by rw [pow_succ]
      rw [natHexAux_append]
      unfold fromHexDigits
      rw [List.foldl_append]
      have := ih (n / 16) hk hdiv
      unfold fromHexDigits at this
      rw [this]
      simp [hexCharVal_hexDigitChar (n % 16) (Nat.mod_lt n (by norm_num))]
      omega

theorem fromHexDigits_replicate_zero (k : Nat) (ds : List Char) :
    fromHexDigits (List.replicate k '0' ++ ds) = fromHexDigits ds := by
  unfold fromHexDigits
  rw [List.foldl_append]
  congr 1
  induction k with
  | zero => rfl
  | succ m ih => simpa [List.replicate_succ, hexCharVal] using ih

/-- The character class of `printf %x` output. -/
abbrev isLowerHexDigit (c : Char) : Prop :=
  (48 ≤ c.toNat ∧ c.toNat ≤ 57) ∨ (97 ≤ c.toNat ∧ c.toNat ≤ 102)

theorem isLowerHexDigit_hexDigitChar : ∀ d < 16,
    isLowerHexDigit (natHexAux.hexDigitChar d) := by decide

theorem natHexAux_mem : ∀ (fuel n : Nat) (acc : List Char),
    (∀ c ∈ acc, isLowerHexDigit c) →
    ∀ c ∈ natHexAux fuel n acc, isLowerHexDigit c := by
  intro fuel
  induction fuel with
  | zero => intro n acc hacc; simpa [natHexAux] using hacc
  | succ k ih =>
    intro n acc hacc c hc
    unfold natHexAux at hc
    by_cases hn : n < 16
    · simp [hn] at hc
      rcases hc with h | h
      · subst h; exact isLowerHexDigit_hexDigitChar n hn
      · exact hacc c h
    · simp only [if_neg hn] at hc
      refine ih (n / 16) _ ?_ c hc
      intro d hd
      rcases List.mem_cons.mp hd with h | h
      · subst h
        exact isLowerHexDigit_hexDigitChar (n % 16) (Nat.mod_lt n (by norm_num))
      · exact hacc d h

/-- The character class of `printf` decimal output. -/
abbrev isDecDigit (c : Char) : Prop := 48 ≤ c.toNat ∧ c.toNat ≤ 57

theorem isDecDigit_digitChar : ∀ d < 10, isDecDigit (Char.ofNat (48 + d)) := by
  decide

theorem natDecAux_mem : ∀ (fuel n : Nat) (acc : List Char),
    (∀ c ∈ acc, isDecDigit c) →
    ∀ c ∈ natDecAux fuel n acc, isDecDigit c := by
  intro fuel
  induction fuel with
  | zero => intro n acc hacc; simpa [natDecAux] using hacc
  | succ k ih =>
    intro n acc hacc c hc
    unfold natDecAux at hc
    by_cases hn : n < 10
    · simp [hn] at hc
      rcases hc with h | h
      · subst h
        exact isDecDigit_digitChar n hn
      · exact hacc c h
    · simp only [if_neg hn] at hc
      refine ih (n / 10) _ ?_ c hc
      intro d hd
      rcases List.mem_cons.mp hd with h | h
      · subst h
        exact isDecDigit_digitChar (n % 10) (Nat.mod_lt n (by omega))
      · exact hacc d h

/-! ### Claim C1: the String Escaper's byte mapping -/

/-- C1. For every byte sequence, `QuoteAndEscapeTextProtoString` returns a
double-quoted literal in which each byte is rendered by exactly the
claimed mapping: the ten special bytes map to their two-character
escapes, printable ASCII `0x20..0x7e` is copied verbatim, and every other
byte becomes a backslash followed by three octal digits (top 2 bits,
middle 3 bits, low 3 bits). -/
theorem claimC1 (raw : List Nat) (h : ∀ b ∈ raw, b < 256) :
    QuoteAndEscapeTextProtoString raw =
      '"' :: concatAll (raw.map specEscapeByte) ++ ['"'] := by
  unfold QuoteAndEscapeTextProtoString
  have key : concatAll (raw.map escapeChar) =
      concatAll (raw.map specEscapeByte) := by
    induction raw with
    | nil => rfl
    | cons b bs ih =>
      simp only [List.map_cons, concatAll]
      rw [escapeChar_eq_spec b (h b (by simp)),
        ih (fun x hx => h x (by simp [hx]))]
  rw [key]

/-- C1 witness: the single byte `0x01` renders as `"\001"`. -/
theorem claimC1_witness :
    QuoteAndEscapeTextProtoString [1] = "\"\\001\"".data := by
  rw [claimC1 [1] (by decide)]
  decide

/-! ### Claim C3: unresolvable enums fall back to the unknown-field form -/

/-- C3. For a varint field declared `ENUM`: if the resolved enum type name
is not in the pool, or it is but the value has no symbolic name, the
field renders as `<tag>: <raw unsigned decimal>`, identical to the
rendering with no descriptor at all; when the symbolic name exists the
field renders as `<name>: <symbolic-name>`. -/
theorem claimC3 (pool : DescriptorPool) (fd : FieldDescriptor) (f : Field)
    (out : List Char) (henum : fd.type = TYPE_ENUM)
    (hw : f.wire = ProtoWireType.kVarInt) :
    (pool.FindDescriptorIdx fd.resolved_type_name = none →
      PrintVarIntField (some fd) f pool out =
        out ++ natDec f.id ++ ": ".data ++ natDec f.as_uint64 ∧
      PrintVarIntField (some fd) f pool out =
        PrintVarIntField none f pool out) ∧
    (∀ i d, pool.FindDescriptorIdx fd.resolved_type_name = some i →
      pool.descriptors[i]? = some d →
      d.FindEnumString f.as_int32 = none →
      PrintVarIntField (some fd) f pool out =
        out ++ natDec f.id ++ ": ".data ++ natDec f.as_uint64 ∧
      PrintVarIntField (some fd) f pool out =
        PrintVarIntField none f pool out) ∧
    (∀ i d s, pool.FindDescriptorIdx fd.resolved_type_name = some i →
      pool.descriptors[i]? = some d →
      d.FindEnumString f.as_int32 = some s →
      PrintVarIntField (some fd) f pool out =
        out ++ fd.name ++ ": ".data ++ s) := by
  refine ⟨fun hidx => ?_, fun i d hidx hd hes => ?_, fun i d s hidx hd hes => ?_⟩
  · constructor <;>
      simp [PrintVarIntField, henum, hidx, TYPE_INT32, TYPE_SINT32,
        TYPE_UINT32, TYPE_INT64, TYPE_SINT64, TYPE_UINT64, TYPE_BOOL,
        TYPE_ENUM]
  · constructor <;>
      simp [PrintVarIntField, henum, hidx, hd, hes, TYPE_INT32, TYPE_SINT32,
        TYPE_UINT32, TYPE_INT64, TYPE_SINT64, TYPE_UINT64, TYPE_BOOL,
        TYPE_ENUM]
  · simp [PrintVarIntField, henum, hidx, hd, hes, TYPE_INT32, TYPE_SINT32,
      TYPE_UINT32, TYPE_INT64, TYPE_SINT64, TYPE_UINT64, TYPE_BOOL,
      TYPE_ENUM]

/-- A two-entry enum pool used by concrete checks: `MyEnum` with the
single symbolic value `1 = ONE`. -/
def descMyEnum : ProtoDescriptor := ⟨"MyEnum".data, [], [(1, "ONE".data)]⟩

def poolMyEnum : DescriptorPool := ⟨[descMyEnum]⟩

def fdMyState : FieldDescriptor := ⟨"state".data, TYPE_ENUM, false, "MyEnum".data⟩

/-- C3 witness: with `MyEnum = \x7b1 = ONE\x7d`, value 2 falls back to
`4: 2` (identical to the descriptor-less rendering) and value 1 renders
as `state: ONE`. -/
theorem claimC3_witness :
    PrintVarIntField (some fdMyState) ⟨4, ProtoWireType.kVarInt, 2, []⟩
        poolMyEnum [] = "4: 2".data ∧
    PrintVarIntField (some fdMyState) ⟨4, ProtoWireType.kVarInt, 2, []⟩
        poolMyEnum [] =
      PrintVarIntField none ⟨4, ProtoWireType.kVarInt, 2, []⟩ poolMyEnum [] ∧
    PrintVarIntField (some fdMyState) ⟨4, ProtoWireType.kVarInt, 1, []⟩
        poolMyEnum [] = "state: ONE".data := by
  have h2 := claimC3 poolMyEnum fdMyState ⟨4, ProtoWireType.kVarInt, 2, []⟩
    [] rfl rfl
  have h1 := claimC3 poolMyEnum fdMyState ⟨4, ProtoWireType.kVarInt, 1, []⟩
    [] rfl rfl
  have hfall := h2.2.1 0 descMyEnum (by decide) (by decide) (by decide)
  have hname := h1.2.2 0 descMyEnum "ONE".data (by decide) (by decide)
    (by decide)
  exact ⟨hfall.1.trans (by decide), hfall.2, hname.trans (by decide)⟩

/-! ### Claim C10: enum lookup truncates to 32 bits, fallback prints 64 -/

/-- C10. The symbolic-name lookup for a varint `ENUM` field is performed
on the varint truncated to a signed 32-bit value (`Field::as_int32`), so
wire values congruent mod `2^32` resolve identically; when the lookup
fails, the fallback prints the full untruncated 64-bit unsigned varint
(`Field::as_uint64`). -/
theorem claimC10 (pool : DescriptorPool) (fd : FieldDescriptor)
    (tag v1 v2 : Nat) (out : List Char) (henum : fd.type = TYPE_ENUM)
    (h1 : v1 < 2 ^ 64) (h2 : v2 < 2 ^ 64)
    (hmod : v1 % 2 ^ 32 = v2 % 2 ^ 32) :
    (Field.mk tag ProtoWireType.kVarInt v1 []).as_int32 =
      (Field.mk tag ProtoWireType.kVarInt v2 []).as_int32 ∧
    (∀ i d, pool.FindDescriptorIdx fd.resolved_type_name = some i →
      pool.descriptors[i]? = some d →
      d.FindEnumString (Field.mk tag ProtoWireType.kVarInt v1 []).as_int32 =
        none →
      PrintVarIntField (some fd) ⟨tag, ProtoWireType.kVarInt, v1, []⟩ pool
          out = out ++ natDec tag ++ ": ".data ++ natDec v1 ∧
      PrintVarIntField (some fd) ⟨tag, ProtoWireType.kVarInt, v2, []⟩ pool
          out = out ++ natDec tag ++ ": ".data ++ natDec v2) ∧
    (∀ i d s, pool.FindDescriptorIdx fd.resolved_type_name = some i →
      pool.descriptors[i]? = some d →
      d.FindEnumString (Field.mk tag ProtoWireType.kVarInt v1 []).as_int32 =
        some s →
      PrintVarIntField (some fd) ⟨tag, ProtoWireType.kVarInt, v1, []⟩ pool
          out = out ++ fd.name ++ ": ".data ++ s ∧
      PrintVarIntField (some fd) ⟨tag, ProtoWireType.kVarInt, v2, []⟩ pool
          out = out ++ fd.name ++ ": ".data ++ s) := by
  have hint : (Field.mk tag ProtoWireType.kVarInt v1 []).as_int32 =
      (Field.mk tag ProtoWireType.kVarInt v2 []).as_int32 := by
    simp only [Field.as_int32]
    unfold toInt32
    rw [hmod]
  refine ⟨hint, fun i d hidx hd hes => ?_, fun i d s hidx hd hes => ?_⟩
  · have hes2 := hes
    rw [hint] at hes2
    have hu1 : (Field.mk tag ProtoWireType.kVarInt v1 []).as_uint64 = v1 :=
      Nat.mod_eq_of_lt h1
    have hu2 : (Field.mk tag ProtoWireType.kVarInt v2 []).as_uint64 = v2 :=
      Nat.mod_eq_of_lt h2
    constructor
    · simp [PrintVarIntField, henum, hidx, hd, hes, hu1, TYPE_INT32,
        TYPE_SINT32, TYPE_UINT32, TYPE_INT64, TYPE_SINT64, TYPE_UINT64,
        TYPE_BOOL, TYPE_ENUM]
    · simp [PrintVarIntField, henum, hidx, hd, hes2, hu2, TYPE_INT32,
        TYPE_SINT32, TYPE_UINT32, TYPE_INT64, TYPE_SINT64, TYPE_UINT64,
        TYPE_BOOL, TYPE_ENUM]
  · have hes2 := hes
    rw [hint] at hes2
    constructor
    · simp [PrintVarIntField, henum, hidx, hd, hes, TYPE_INT32,
        TYPE_SINT32, TYPE_UINT32, TYPE_INT64, TYPE_SINT64, TYPE_UINT64,
        TYPE_BOOL, TYPE_ENUM]
    · simp [PrintVarIntField, henum, hidx, hd, hes2, TYPE_INT32,
        TYPE_SINT32, TYPE_UINT32, TYPE_INT64, TYPE_SINT64, TYPE_UINT64,
        TYPE_BOOL, TYPE_ENUM]

/-- C10 witness: `5` and `2^32 + 5` truncate to the same 32-bit lookup
key; neither has a symbolic name in `MyEnum`, and the fallbacks print the
distinct full 64-bit values `5` and `4294967301`. -/
theorem claimC10_witness :
    (Field.mk 4 ProtoWireType.kVarInt 5 []).as_int32 =
      (Field.mk 4 ProtoWireType.kVarInt (2 ^ 32 + 5) []).as_int32 ∧
    PrintVarIntField (some fdMyState) ⟨4, ProtoWireType.kVarInt, 5, []⟩
        poolMyEnum [] = "4: 5".data ∧
    PrintVarIntField (some fdMyState)
        ⟨4, ProtoWireType.kVarInt, 2 ^ 32 + 5, []⟩ poolMyEnum [] =
      "4: 4294967301".data := by
  have h := claimC10 poolMyEnum fdMyState 4 5 (2 ^ 32 + 5) [] rfl
    (by norm_num) (by norm_num) (by norm_num)
  have hfall := h.2.1 0 descMyEnum (by decide) (by decide) (by decide)
  exact ⟨h.1, hfall.1.trans (by decide), hfall.2.trans (by decide)⟩


/-! ### Claim C7 (corrected): unknown fixed32/64 print zero-padded
lowercase hex, not uppercase -/

/-- Uppercase `%X` digit characters, as claim C7's `0x%08X` would demand
(claim-side definition used to refute the uppercase part). -/
def specUpperHexAux : Nat → Nat → List Char → List Char
  | 0, _, acc => acc
  | fuel + 1, n, acc =>
    if n < 16 then upperHexDigitChar n :: acc
    else specUpperHexAux fuel (n / 16) (upperHexDigitChar (n % 16) :: acc)
where
  upperHexDigitChar (d : Nat) : Char :=
    if d < 10 then Char.ofNat (48 + d) else Char.ofNat (55 + d)

/-- Zero-padded uppercase hex of width `w` (claim-side definition). -/
def specUpperHexPad (w n : Nat) : List Char :=
  let ds := specUpperHexAux w n []
  List.replicate (w - ds.length) '0' ++ ds

/-- C7 counterexample: the unknown-field fixed32/fixed64 renderings of
`0xDEADBEEF` and `0xDEADBEEFCAFEBABE` use lowercase hex digits, so they
differ from the uppercase `0x%08X` / `0x%016X` form the claim states. -/
theorem claimC7_counterexample :
    PrintFixed32Field none ⟨7, ProtoWireType.kFixed32, 0xDEADBEEF, []⟩ [] =
      "7: 0xdeadbeef".data ∧
    PrintFixed32Field none ⟨7, ProtoWireType.kFixed32, 0xDEADBEEF, []⟩ [] ≠
      "7: 0x".data ++ specUpperHexPad 8 0xDEADBEEF ∧
    PrintFixed64Field none
        ⟨9, ProtoWireType.kFixed64, 0xDEADBEEFCAFEBABE, []⟩ [] =
      "9: 0xdeadbeefcafebabe".data ∧
    PrintFixed64Field none
        ⟨9, ProtoWireType.kFixed64, 0xDEADBEEFCAFEBABE, []⟩ [] ≠
      "9: 0x".data ++ specUpperHexPad 16 0xDEADBEEFCAFEBABE := by
  refine ⟨by decide, by decide, by decide, by decide⟩

/-- C7 (amended).  A fixed32 record with no descriptor or an unrecognized
declared type — any declared type other than `SFIXED32`, `FIXED32`,
`FLOAT`, including e.g. a 64-bit type like `DOUBLE` — renders as
`<tag>: 0x` followed by exactly 8 zero-padded **lowercase** hexadecimal
digits denoting `as_uint32`, and a fixed64 record whose declared type is
anything other than `SFIXED64`, `FIXED64`, `DOUBLE` as `<tag>: 0x`
followed by exactly 16 zero-padded lowercase hexadecimal digits denoting
`as_uint64` (`0x%08x` / `0x%016x`, `PRIx` conversions; the claim's
uppercase `%X` is refuted by `claimC7_counterexample`). -/
theorem claimC7 (fd32? fd64? : Option FieldDescriptor) (f32 f64 : Field)
    (out : List Char)
    (h32 : ∀ fd, fd32? = some fd →
      fd.type ≠ TYPE_SFIXED32 ∧ fd.type ≠ TYPE_FIXED32 ∧
      fd.type ≠ TYPE_FLOAT)
    (h64 : ∀ fd, fd64? = some fd →
      fd.type ≠ TYPE_SFIXED64 ∧ fd.type ≠ TYPE_FIXED64 ∧
      fd.type ≠ TYPE_DOUBLE) :
    (PrintFixed32Field fd32? f32 out =
      out ++ natDec f32.id ++ ": ".data ++ "0x".data ++
        hexPadLower 8 f32.as_uint32 ∧
     (hexPadLower 8 f32.as_uint32).length = 8 ∧
     fromHexDigits (hexPadLower 8 f32.as_uint32) = f32.as_uint32 ∧
     ∀ c ∈ hexPadLower 8 f32.as_uint32, isLowerHexDigit c) ∧
    (PrintFixed64Field fd64? f64 out =
      out ++ natDec f64.id ++ ": ".data ++ "0x".data ++
        hexPadLower 16 f64.as_uint64 ∧
     (hexPadLower 16 f64.as_uint64).length = 16 ∧
     fromHexDigits (hexPadLower 16 f64.as_uint64) = f64.as_uint64 ∧
     ∀ c ∈ hexPadLower 16 f64.as_uint64, isLowerHexDigit c) := by
  have hp32 : f32.as_uint32 < 16 ^ 8 := by
    have : f32.value % 2 ^ 32 < 2 ^ 32 := Nat.mod_lt _ (by norm_num)
    simpa [Field.as_uint32] using this
  have hp64 : f64.as_uint64 < 16 ^ 16 := by
    have : f64.value % 2 ^ 64 < 2 ^ 64 := Nat.mod_lt _ (by norm_num)
    simpa [Field.as_uint64] using this
  have hlen32 : (natHexAux 8 f32.as_uint32 []).length ≤ 8 := by
    simpa using natHexAux_length 8 f32.as_uint32 [] hp32
  have hlen64 : (natHexAux 16 f64.as_uint64 []).length ≤ 16 := by
    simpa using natHexAux_length 16 f64.as_uint64 [] hp64
  refine ⟨⟨?_, ?_, ?_, ?_⟩, ⟨?_, ?_, ?_, ?_⟩⟩
  · cases fd32? with
    | none => simp [PrintFixed32Field]
    | some fd =>
      obtain ⟨h1, h2, h3⟩ := h32 fd rfl
      simp [PrintFixed32Field, h1, h2, h3]
  · simp [hexPadLower]
    omega
  · rw [hexPadLower, fromHexDigits_replicate_zero,
      fromHexDigits_natHexAux 8 f32.as_uint32 (by norm_num) hp32]
  · intro c hc
    rw [hexPadLower] at hc
    rcases List.mem_append.mp hc with hrep | hds
    · have := List.eq_of_mem_replicate hrep
      subst this
      left
      constructor <;> decide
    · exact natHexAux_mem 8 f32.as_uint32 [] (by simp) c hds
  · cases fd64? with
    | none => simp [PrintFixed64Field]
    | some fd =>
      obtain ⟨h1, h2, h3⟩ := h64 fd rfl
      simp [PrintFixed64Field, h1, h2, h3]
  · simp [hexPadLower]
    omega
  · rw [hexPadLower, fromHexDigits_replicate_zero,
      fromHexDigits_natHexAux 16 f64.as_uint64 (by norm_num) hp64]
  · intro c hc
    rw [hexPadLower] at hc
    rcases List.mem_append.mp hc with hrep | hds
    · have := List.eq_of_mem_replicate hrep
      subst this
      left
      constructor <;> decide
    · exact natHexAux_mem 16 f64.as_uint64 [] (by simp) c hds

/-- C7 witness: the amended statement applied to declared types from the
other width — a fixed32 record declared `DOUBLE` and a fixed64 record
declared `FLOAT` are unrecognized by the respective printers and take
the same lowercase hex fallback. -/
theorem claimC7_witness :
    PrintFixed32Field (some ⟨"w".data, TYPE_DOUBLE, false, []⟩)
        ⟨7, ProtoWireType.kFixed32, 0xDEADBEEF, []⟩ [] =
      [] ++ natDec 7 ++ ": ".data ++ "0x".data ++
        hexPadLower 8
          (Field.mk 7 ProtoWireType.kFixed32 0xDEADBEEF []).as_uint32 ∧
    (hexPadLower 8
      (Field.mk 7 ProtoWireType.kFixed32 0xDEADBEEF []).as_uint32).length
      = 8 ∧
    fromHexDigits (hexPadLower 8
        (Field.mk 7 ProtoWireType.kFixed32 0xDEADBEEF []).as_uint32) =
      (Field.mk 7 ProtoWireType.kFixed32 0xDEADBEEF []).as_uint32 ∧
    PrintFixed64Field (some ⟨"v".data, TYPE_FLOAT, false, []⟩)
        ⟨9, ProtoWireType.kFixed64, 0xDEADBEEFCAFEBABE, []⟩ [] =
      [] ++ natDec 9 ++ ": ".data ++ "0x".data ++
        hexPadLower 16
          (Field.mk 9 ProtoWireType.kFixed64 0xDEADBEEFCAFEBABE
            []).as_uint64 := by
  have h := claimC7 (some ⟨"w".data, TYPE_DOUBLE, false, []⟩)
    (some ⟨"v".data, TYPE_FLOAT, false, []⟩)
    ⟨7, ProtoWireType.kFixed32, 0xDEADBEEF, []⟩
    ⟨9, ProtoWireType.kFixed64, 0xDEADBEEFCAFEBABE, []⟩ []
    (fun fd hfd => by
      rw [← Option.some.inj hfd]
      exact ⟨by decide, by decide, by decide⟩)
    (fun fd hfd => by
      rw [← Option.some.inj hfd]
      exact ⟨by decide, by decide, by decide⟩)
  exact ⟨h.1.1, h.1.2.1, h.1.2.2.1, h.2.1⟩

/-! ### Claim C8 (corrected): FLOAT/DOUBLE print via `std::to_string`
(fixed six decimals), not shortest-round-trip -/

/-- Split a decimal string at the dot (claim-side parser used to compare
decimal strings by value). -/
def splitDot (l : List Char) : List Char × List Char :=
  (l.takeWhile (fun c => c != '.'), (l.dropWhile (fun c => c != '.')).drop 1)

/-- Value of a decimal digit string. -/
def decDigitsVal (l : List Char) : Nat :=
  l.foldl (fun a c => 10 * a + (c.toNat - 48)) 0

/-- Parse an unsigned decimal string `a.b` into
`(integer part, fraction digits value, fraction length)`. -/
def parseDec (s : List Char) : Nat × Nat × Nat :=
  let p := splitDot s
  (decDigitsVal p.1, decDigitsVal p.2, p.2.length)

/-- Two unsigned decimal strings denote the same rational number. -/
abbrev sameDecValue (a b : List Char) : Prop :=
  (((parseDec a).1 * 10 ^ (parseDec a).2.2 + (parseDec a).2.1)
      * 10 ^ (parseDec b).2.2) =
    (((parseDec b).1 * 10 ^ (parseDec b).2.2 + (parseDec b).2.1)
      * 10 ^ (parseDec a).2.2)

set_option maxRecDepth 20000 in
/-- C8 counterexample: the 4-byte payload `0x3F000000` (the float `0.5`)
renders its value as `0.500000` — `std::to_string`'s fixed six-decimal
form — and the 8-byte payload `0x3FE0000000000000` (the double `0.5`)
likewise; `0.5` is a strictly shorter decimal denoting the same value,
so the printed form is not shortest-round-trip formatting. -/
theorem claimC8_counterexample :
    PrintFixed32Field
        (some ⟨"f".data, TYPE_FLOAT, false, []⟩)
        ⟨1, ProtoWireType.kFixed32, 0x3F000000, []⟩ [] =
      "f: 0.500000".data ∧
    PrintFixed64Field
        (some ⟨"d".data, TYPE_DOUBLE, false, []⟩)
        ⟨1, ProtoWireType.kFixed64, 0x3FE0000000000000, []⟩ [] =
      "d: 0.500000".data ∧
    sameDecValue "0.5".data "0.500000".data ∧
    "0.5".data.length < "0.500000".data.length := by
  refine ⟨by decide, by decide, by decide, by decide⟩

/-- C8 (amended).  A fixed32 field declared `FLOAT` reinterprets its 4
payload bytes as an IEEE-754 single and a fixed64 field declared
`DOUBLE` reinterprets its 8 payload bytes as an IEEE-754 double, but
each is printed via `std::to_string`, i.e. `%f` fixed-point notation
with exactly six fractional decimal digits — not shortest-round-trip
formatting (refuted by `claimC8_counterexample`). -/
theorem claimC8 (fdF fdD : FieldDescriptor) (fF fD : Field)
    (out : List Char) (hF : fdF.type = TYPE_FLOAT)
    (hD : fdD.type = TYPE_DOUBLE)
    (hwF : fF.wire = ProtoWireType.kFixed32)
    (hwD : fD.wire = ProtoWireType.kFixed64) (vF vD : FloatVal)
    (hvF : floatFromBits fF.as_uint32 = some vF)
    (hvD : doubleFromBits fD.as_uint64 = some vD) :
    (PrintFixed32Field (some fdF) fF out =
        out ++ fdF.name ++ ": ".data ++ cppFixed6 vF ∧
      ∃ intPart fracPart,
        cppFixed6 vF = intPart ++ '.' :: fracPart ∧
        fracPart.length = 6 ∧ ∀ c ∈ fracPart, isDecDigit c) ∧
    (PrintFixed64Field (some fdD) fD out =
        out ++ fdD.name ++ ": ".data ++ cppFixed6 vD ∧
      ∃ intPart fracPart,
        cppFixed6 vD = intPart ++ '.' :: fracPart ∧
        fracPart.length = 6 ∧ ∀ c ∈ fracPart, isDecDigit c) := by
  have key : ∀ v : FloatVal, ∃ intPart fracPart,
      cppFixed6 v = intPart ++ '.' :: fracPart ∧
      fracPart.length = 6 ∧ ∀ c ∈ fracPart, isDecDigit c := by
    intro v
    refine ⟨(if v.neg then ['-'] else []) ++
      natDec (roundHalfEven (v.num * 1000000) v.den / 1000000),
      frac6 (roundHalfEven (v.num * 1000000) v.den % 1000000), ?_, ?_, ?_⟩
    · simp [cppFixed6]
    · have hm : roundHalfEven (v.num * 1000000) v.den % 1000000
          < 10 ^ 6 := by
        have := Nat.mod_lt (roundHalfEven (v.num * 1000000) v.den)
          (show 0 < 1000000 by norm_num)
        omega
      have hle : (natDecAux 6
          (roundHalfEven (v.num * 1000000) v.den % 1000000) []).length ≤ 6 := by
        simpa using natDecAux_length 6
          (roundHalfEven (v.num * 1000000) v.den % 1000000) [] hm
      simp [frac6]
      omega
    · intro c hc
      rw [frac6] at hc
      rcases List.mem_append.mp hc with hrep | hds
      · have := List.eq_of_mem_replicate hrep
        subst this
        constructor <;> decide
      · exact natDecAux_mem 6 _ [] (by simp) c hds
  constructor
  · constructor
    · simp [PrintFixed32Field, hF, TYPE_SFIXED32, TYPE_FIXED32,
        TYPE_FLOAT, cppToStringFloat, hvF]
    · exact key vF
  · constructor
    · simp [PrintFixed64Field, hD, TYPE_SFIXED64, TYPE_FIXED64,
        TYPE_DOUBLE, cppToStringDouble, hvD]
    · exact key vD

set_option maxRecDepth 20000 in
/-- C8 witness: the amended statement applied to the `0.5f` and `0.5`
payloads. -/
theorem claimC8_witness :
    PrintFixed32Field (some ⟨"f".data, TYPE_FLOAT, false, []⟩)
        ⟨1, ProtoWireType.kFixed32, 0x3F000000, []⟩ [] =
      [] ++ "f".data ++ ": ".data ++
        cppFixed6 ⟨false, (2 ^ 23 + 0) * 2 ^ 126, 2 ^ 150⟩ ∧
    PrintFixed64Field (some ⟨"d".data, TYPE_DOUBLE, false, []⟩)
        ⟨1, ProtoWireType.kFixed64, 0x3FE0000000000000, []⟩ [] =
      [] ++ "d".data ++ ": ".data ++
        cppFixed6 ⟨false, (2 ^ 52 + 0) * 2 ^ 1022, 2 ^ 1075⟩ := by
  have h := claimC8 ⟨"f".data, TYPE_FLOAT, false, []⟩
    ⟨"d".data, TYPE_DOUBLE, false, []⟩
    ⟨1, ProtoWireType.kFixed32, 0x3F000000, []⟩
    ⟨1, ProtoWireType.kFixed64, 0x3FE0000000000000, []⟩ [] rfl rfl rfl rfl
    ⟨false, (2 ^ 23 + 0) * 2 ^ 126, 2 ^ 150⟩
    ⟨false, (2 ^ 52 + 0) * 2 ^ 1022, 2 ^ 1075⟩ (by decide) (by decide)
  exact ⟨h.1.1, h.2.1⟩


/-! ### Output-buffer / fragment correspondence

The renderer appends to a single shared output buffer, and its only
inspection of that buffer is the emptiness test that chooses between the
inter-field separator and the bare indentation.  The lemmas below factor
the appended text into per-record fragments. -/

theorem PrintVarIntField_factor (fd? : Option FieldDescriptor) (f : Field)
    (pool : DescriptorPool) (out : List Char) :
    PrintVarIntField fd? f pool out = out ++ PrintVarIntField fd? f pool [] :=
  rfl

theorem PrintFixed32Field_factor (fd? : Option FieldDescriptor) (f : Field)
    (out : List Char) :
    PrintFixed32Field fd? f out = out ++ PrintFixed32Field fd? f [] := rfl

theorem PrintFixed64Field_factor (fd? : Option FieldDescriptor) (f : Field)
    (out : List Char) :
    PrintFixed64Field fd? f out = out ++ PrintFixed64Field fd? f [] := rfl

theorem DecreaseIndents_IncreaseIndents (ind : List Char) :
    DecreaseIndents (IncreaseIndents ind) = ind := by
  simp [DecreaseIndents, IncreaseIndents, List.take_left]

theorem IncreaseIndents_length (ind : List Char) :
    (IncreaseIndents ind).length = ind.length + 2 := by
  simp [IncreaseIndents]

/-- The per-field relation between the buffer-threading renderer one
nesting level down and the fragment list one nesting level down. -/
def FragRel (pool : DescriptorPool) (mode : NewLinesMode)
    (recR : List Char → List Nat → RState → Option RState)
    (recF : List Char → List Nat → List Char → Option (List (List Char))) :
    Prop :=
  ∀ ty bs st st', st.output ≠ [] → recR ty bs st = some st' →
    ∃ frs, recF ty bs st.indents = some frs ∧
      st'.output = st.output ++
        concatAll (frs.map (fun t => sepStr mode st.indents ++ t)) ∧
      st'.indents = st.indents

theorem renderField_frag (pool : DescriptorPool) (mode : NewLinesMode)
    (recR : List Char → List Nat → RState → Option RState)
    (recF : List Char → List Nat → List Char → Option (List (List Char)))
    (hrel : FragRel pool mode recR recF) (fd? : Option FieldDescriptor)
    (f : Field) (st st' : RState)
    (h : renderField recR pool fd? f mode st = some st') :
    ∃ t, fieldFrag recF pool mode fd? st.indents f = some t ∧
      st'.output = st.output ++ t ∧ st'.indents = st.indents := by
  cases hw : f.wire with
  | kVarInt =>
    simp only [renderField, hw, Option.some.injEq] at h
    refine ⟨PrintVarIntField fd? f pool [], by simp [fieldFrag, hw], ?_, ?_⟩
    · rw [← h]
      exact PrintVarIntField_factor fd? f pool st.output
    · rw [← h]
  | kFixed32 =>
    simp only [renderField, hw, Option.some.injEq] at h
    refine ⟨PrintFixed32Field fd? f [], by simp [fieldFrag, hw], ?_, ?_⟩
    · rw [← h]
      exact PrintFixed32Field_factor fd? f st.output
    · rw [← h]
  | kFixed64 =>
    simp only [renderField, hw, Option.some.injEq] at h
    refine ⟨PrintFixed64Field fd? f [], by simp [fieldFrag, hw], ?_, ?_⟩
    · rw [← h]
      exact PrintFixed64Field_factor fd? f st.output
    · rw [← h]
  | kLengthDelimited =>
    simp only [renderField, hw] at h
    cases fd? with
    | none =>
      simp only [PrintLengthDelimitedField, Option.some.injEq] at h
      refine ⟨natDec f.id ++ ": ".data ++
        QuoteAndEscapeTextProtoString f.as_std_string,
        by simp [fieldFrag, hw], ?_, ?_⟩
      · rw [← h]
        simp [List.append_assoc]
      · rw [← h]
    | some fd =>
      by_cases hbs : fd.type = TYPE_BYTES ∨ fd.type = TYPE_STRING
      · simp only [PrintLengthDelimitedField, if_pos hbs,
          Option.some.injEq] at h
        refine ⟨fd.name ++ ": ".data ++
          QuoteAndEscapeTextProtoString f.as_std_string,
          by simp [fieldFrag, hw, hbs], ?_, ?_⟩
        · rw [← h]
          simp [List.append_assoc]
        · rw [← h]
      · by_cases hmsg : fd.type = TYPE_MESSAGE
        · simp only [PrintLengthDelimitedField, if_neg hbs, if_pos hmsg] at h
          cases hr : recR fd.resolved_type_name f.as_bytes
              { output := st.output ++ FormattedFieldDescriptorName fd ++
                  ": \x7b".data,
                indents :=
                  if mode = NewLinesMode.kIncludeNewLines then
                    IncreaseIndents st.indents
                  else st.indents,
                dcheckOk := st.dcheckOk } with
          | none => rw [hr] at h; cases h
          | some st2 =>
            rw [hr] at h
            have hne1 : (st.output ++ FormattedFieldDescriptorName fd ++
                ": \x7b".data) ≠ [] := by
              simp [List.append_eq_nil]
            obtain ⟨frs, hfrs, hout2, hind2⟩ :=
              hrel fd.resolved_type_name f.as_bytes _ st2 hne1 hr
            by_cases hm : mode = NewLinesMode.kIncludeNewLines
            · simp only [if_pos hm] at h hfrs hout2 hind2
              simp only [Option.some.injEq] at h
              refine ⟨FormattedFieldDescriptorName fd ++ ": \x7b".data ++
                concatAll (frs.map (fun t =>
                  sepStr mode (IncreaseIndents st.indents) ++ t)) ++
                '\n' :: st.indents ++ ['\x7d'], ?_, ?_, ?_⟩
              · simp only [fieldFrag, hw, if_neg hbs, if_pos hmsg,
                  if_pos hm]
                rw [hfrs]
                try simp [List.append_assoc]
              · rw [← h]
                simp only [hout2, hind2, DecreaseIndents_IncreaseIndents]
                try simp [List.append_assoc]
              · rw [← h]
                simp only [hind2, DecreaseIndents_IncreaseIndents]
            · simp only [if_neg hm] at h hfrs hout2 hind2
              simp only [Option.some.injEq] at h
              refine ⟨FormattedFieldDescriptorName fd ++ ": \x7b".data ++
                concatAll (frs.map (fun t =>
                  sepStr mode st.indents ++ t)) ++
                " \x7d".data, ?_, ?_, ?_⟩
              · simp only [fieldFrag, hw, if_neg hbs, if_pos hmsg,
                  if_neg hm]
                rw [hfrs]
                try simp [List.append_assoc]
              · rw [← h]
                simp only [hout2]
                try simp [List.append_assoc]
              · rw [← h]
                simp only [hind2]
        · simp only [PrintLengthDelimitedField, if_neg hbs, if_neg hmsg,
            Option.some.injEq] at h
          refine ⟨natDec f.id ++ ": ".data ++
            QuoteAndEscapeTextProtoString f.as_std_string,
            by simp [fieldFrag, hw, hbs, hmsg], ?_, ?_⟩
          · rw [← h]
            simp [List.append_assoc]
          · rw [← h]


theorem PrintVarIntField_ne_nil (fd? : Option FieldDescriptor) (f : Field)
    (pool : DescriptorPool) : PrintVarIntField fd? f pool [] ≠ [] := by
  unfold PrintVarIntField
  rcases fd? with _ | fd
  · simp
  · simp only [List.nil_append]
    repeat' split
    all_goals simp

theorem PrintFixed32Field_ne_nil (fd? : Option FieldDescriptor) (f : Field) :
    PrintFixed32Field fd? f [] ≠ [] := by
  unfold PrintFixed32Field
  rcases fd? with _ | fd
  · simp
  · simp only [List.nil_append]
    repeat' split
    all_goals simp

theorem PrintFixed64Field_ne_nil (fd? : Option FieldDescriptor) (f : Field) :
    PrintFixed64Field fd? f [] ≠ [] := by
  unfold PrintFixed64Field
  rcases fd? with _ | fd
  · simp
  · simp only [List.nil_append]
    repeat' split
    all_goals simp

theorem fieldFrag_ne_nil
    (recF : List Char → List Nat → List Char → Option (List (List Char)))
    (pool : DescriptorPool) (mode : NewLinesMode)
    (fd? : Option FieldDescriptor) (ind : List Char) (f : Field)
    (t : List Char) (h : fieldFrag recF pool mode fd? ind f = some t) :
    t ≠ [] := by
  cases hw : f.wire with
  | kVarInt =>
    simp only [fieldFrag, hw, Option.some.injEq] at h
    rw [← h]
    exact PrintVarIntField_ne_nil fd? f pool
  | kFixed32 =>
    simp only [fieldFrag, hw, Option.some.injEq] at h
    rw [← h]
    exact PrintFixed32Field_ne_nil fd? f
  | kFixed64 =>
    simp only [fieldFrag, hw, Option.some.injEq] at h
    rw [← h]
    exact PrintFixed64Field_ne_nil fd? f
  | kLengthDelimited =>
    simp only [fieldFrag, hw] at h
    cases fd? with
    | none =>
      simp only [Option.some.injEq] at h
      rw [← h]
      simp
    | some fd =>
      by_cases hbs : fd.type = TYPE_BYTES ∨ fd.type = TYPE_STRING
      · simp only [if_pos hbs, Option.some.injEq] at h
        rw [← h]
        simp
      · by_cases hmsg : fd.type = TYPE_MESSAGE
        · simp only [if_neg hbs, if_pos hmsg] at h
          cases hr : recF fd.resolved_type_name f.as_bytes
              (if mode = NewLinesMode.kIncludeNewLines then
                IncreaseIndents ind else ind) with
          | none => rw [hr] at h; cases h
          | some frs =>
            rw [hr] at h
            simp only [Option.some.injEq] at h
            rw [← h]
            simp
        · simp only [if_neg hbs, if_neg hmsg, Option.some.injEq] at h
          rw [← h]
          simp

theorem renderFields_frag (pool : DescriptorPool) (mode : NewLinesMode)
    (desc : ProtoDescriptor)
    (recR : List Char → List Nat → RState → Option RState)
    (recF : List Char → List Nat → List Char → Option (List (List Char)))
    (hrel : FragRel pool mode recR recF) :
    ∀ (records : List Field) (st st' : RState), st.output ≠ [] →
      renderFields recR pool desc mode records st = some st' →
      ∃ frs, fragsList recF pool mode desc st.indents records = some frs ∧
        st'.output = st.output ++
          concatAll (frs.map (fun t => sepStr mode st.indents ++ t)) ∧
        st'.indents = st.indents := by
  intro records
  induction records with
  | nil =>
    intro st st' _ h
    simp only [renderFields, Option.some.injEq] at h
    exact ⟨[], rfl, by rw [← h]; simp [concatAll], by rw [← h]⟩
  | cons f fs ih =>
    intro st st' hne h
    simp only [renderFields, if_neg hne] at h
    cases hrf : renderField recR pool (desc.FindFieldByTag f.id) f mode
        { st with output := st.output ++ sepStr mode st.indents } with
    | none => rw [hrf] at h; cases h
    | some st2 =>
      rw [hrf] at h
      obtain ⟨t, ht, hout2, hind2⟩ :=
        renderField_frag pool mode recR recF hrel _ f _ st2 hrf
      simp only at ht hout2 hind2
      have hne2 : st2.output ≠ [] := by
        rw [hout2]
        simp only [ne_eq, List.append_eq_nil]
        rintro ⟨⟨h1, -⟩, -⟩
        exact hne h1
      obtain ⟨frs, hfrs, hout', hind'⟩ := ih st2 st' hne2 h
      rw [hind2] at hfrs hout'
      refine ⟨t :: frs, ?_, ?_, ?_⟩
      · simp only [fragsList, ht, hfrs]
      · rw [hout', hout2]
        simp [concatAll, List.append_assoc]
      · rw [hind', hind2]

theorem renderFields_frag_empty (pool : DescriptorPool)
    (mode : NewLinesMode) (desc : ProtoDescriptor)
    (recR : List Char → List Nat → RState → Option RState)
    (recF : List Char → List Nat → List Char → Option (List (List Char)))
    (hrel : FragRel pool mode recR recF) (records : List Field)
    (ind : List Char) (ok : Bool) (st' : RState)
    (h : renderFields recR pool desc mode records ⟨[], ind, ok⟩ = some st') :
    ∃ frs, fragsList recF pool mode desc ind records = some frs ∧
      st'.output = (match frs with
        | [] => ([] : List Char)
        | t :: ts =>
          ind ++ t ++ concatAll (ts.map (fun u => sepStr mode ind ++ u))) ∧
      st'.indents = ind := by
  cases records with
  | nil =>
    simp only [renderFields, Option.some.injEq] at h
    exact ⟨[], rfl, by rw [← h], by rw [← h]⟩
  | cons f fs =>
    simp [renderFields] at h
    cases hrf : renderField recR pool (desc.FindFieldByTag f.id) f mode
        { output := ind, indents := ind, dcheckOk := ok } with
    | none => rw [hrf] at h; cases h
    | some st2 =>
      rw [hrf] at h
      obtain ⟨t, ht, hout2, hind2⟩ :=
        renderField_frag pool mode recR recF hrel _ f _ st2 hrf
      simp only at ht hout2 hind2
      have htne : t ≠ [] := fieldFrag_ne_nil recF pool mode _ ind f t ht
      have hne2 : st2.output ≠ [] := by
        rw [hout2]
        simp only [ne_eq, List.append_eq_nil]
        rintro ⟨-, h2⟩
        exact htne h2
      obtain ⟨frs, hfrs, hout', hind'⟩ :=
        renderFields_frag pool mode desc recR recF hrel fs st2 st' hne2 h
      rw [hind2] at hfrs hout'
      refine ⟨t :: frs, ?_, ?_, ?_⟩
      · simp only [fragsList, ht, hfrs]
      · rw [hout', hout2]
      · rw [hind', hind2]

theorem internal_frag (pool : DescriptorPool) (mode : NewLinesMode) :
    ∀ fuel, FragRel pool mode (ProtozeroToTextInternal pool mode fuel)
      (msgFrags pool mode fuel) := by
  intro fuel
  induction fuel with
  | zero =>
    intro ty bs st st' _ h
    simp [ProtozeroToTextInternal] at h
  | succ k ih =>
    intro ty bs st st' hne h
    simp only [ProtozeroToTextInternal] at h
    cases hidx : pool.FindDescriptorIdx ty with
    | none => rw [hidx] at h; cases h
    | some idx =>
      rw [hidx] at h
      dsimp only at h
      cases hdesc : pool.descriptors[idx]? with
      | none => rw [hdesc] at h; cases h
      | some desc =>
        rw [hdesc] at h
        dsimp only at h
        cases hrf : renderFields (ProtozeroToTextInternal pool mode k) pool
            desc mode (tokenize bs).1 st with
        | none => rw [hrf] at h; simp at h
        | some st2 =>
          rw [hrf] at h
          simp only [Option.some.injEq] at h
          obtain ⟨frs, hfrs, hout, hind⟩ :=
            renderFields_frag pool mode desc _ _ ih (tokenize bs).1 st st2
              hne hrf
          refine ⟨frs, ?_, ?_, ?_⟩
          · simp only [msgFrags, hidx, hdesc, hfrs]
          · rw [← h]
            exact hout
          · rw [← h]
            exact hind

theorem internal_frag_empty (pool : DescriptorPool) (mode : NewLinesMode)
    (fuel : Nat) (ty : List Char) (bs : List Nat) (ind : List Char)
    (ok : Bool) (st' : RState)
    (h : ProtozeroToTextInternal pool mode (fuel + 1) ty bs
      ⟨[], ind, ok⟩ = some st') :
    ∃ frs, msgFrags pool mode (fuel + 1) ty bs ind = some frs ∧
      st'.output = (match frs with
        | [] => ([] : List Char)
        | t :: ts =>
          ind ++ t ++ concatAll (ts.map (fun u => sepStr mode ind ++ u))) ∧
      st'.indents = ind := by
  simp only [ProtozeroToTextInternal] at h
  cases hidx : pool.FindDescriptorIdx ty with
  | none => rw [hidx] at h; cases h
  | some idx =>
    rw [hidx] at h
    dsimp only at h
    cases hdesc : pool.descriptors[idx]? with
    | none => rw [hdesc] at h; cases h
    | some desc =>
      rw [hdesc] at h
      dsimp only at h
      cases hrf : renderFields (ProtozeroToTextInternal pool mode fuel) pool
          desc mode (tokenize bs).1 ⟨[], ind, ok⟩ with
      | none => rw [hrf] at h; simp at h
      | some st2 =>
        rw [hrf] at h
        simp only [Option.some.injEq] at h
        obtain ⟨frs, hfrs, hout, hind⟩ :=
          renderFields_frag_empty pool mode desc _ _
            (internal_frag pool mode fuel) (tokenize bs).1 ind ok st2 hrf
        refine ⟨frs, ?_, ?_, ?_⟩
        · simp only [msgFrags, hidx, hdesc, hfrs]
        · rw [← h]
          exact hout
        · rw [← h]
          exact hind

theorem fragsList_length
    (recF : List Char → List Nat → List Char → Option (List (List Char)))
    (pool : DescriptorPool) (mode : NewLinesMode) (desc : ProtoDescriptor)
    (ind : List Char) :
    ∀ (records : List Field) (frs : List (List Char)),
      fragsList recF pool mode desc ind records = some frs →
      frs.length = records.length := by
  intro records
  induction records with
  | nil =>
    intro frs h
    simp only [fragsList, Option.some.injEq] at h
    rw [← h]
    rfl
  | cons f fs ih =>
    intro frs h
    simp only [fragsList] at h
    cases h1 : fieldFrag recF pool mode (desc.FindFieldByTag f.id) ind f with
    | none => rw [h1] at h; cases h
    | some t =>
      rw [h1] at h
      cases h2 : fragsList recF pool mode desc ind fs with
      | none => rw [h2] at h; cases h
      | some ts =>
        rw [h2] at h
        simp only [Option.some.injEq] at h
        rw [← h]
        simp [ih ts h2]

theorem msgFrags_length (pool : DescriptorPool) (mode : NewLinesMode)
    (fuel : Nat) (ty : List Char) (bs : List Nat) (ind : List Char)
    (frs : List (List Char)) (h : msgFrags pool mode fuel ty bs ind = some frs) :
    frs.length = (tokenize bs).1.length := by
  cases fuel with
  | zero => simp [msgFrags] at h
  | succ k =>
    simp only [msgFrags] at h
    cases hidx : pool.FindDescriptorIdx ty with
    | none => rw [hidx] at h; cases h
    | some idx =>
      rw [hidx] at h
      dsimp only at h
      cases hdesc : pool.descriptors[idx]? with
      | none => rw [hdesc] at h; cases h
      | some desc =>
        rw [hdesc] at h
        exact fragsList_length (msgFrags pool mode k) pool mode desc ind
          (tokenize bs).1 frs h


/-! ### Claim C2: one fragment per wire record, in stream order -/

/-- C2. Whenever a top-level render succeeds, its text is the in-order
interleaving of one fragment per tokenized `WireRecord`: the fragment
list `msgFrags` has exactly one entry per record of `tokenize`, in the
order the records appear in the byte stream, and the output is their
separator-interleaved concatenation — nothing is reordered, dropped or
merged, so repeated tags contribute one fragment per occurrence. -/
theorem claimC2 (pool : DescriptorPool) (ty : List Char) (bs : List Nat)
    (mode : NewLinesMode) (depth : Nat) (text : List Char)
    (h : ProtozeroToText pool ty bs mode depth = some text) :
    ∃ frs, msgFrags pool mode (bs.length + 1) ty bs
        (List.replicate (2 * depth) ' ') = some frs ∧
      frs.length = (tokenize bs).1.length ∧
      text = (match frs with
        | [] => ([] : List Char)
        | t :: ts =>
          List.replicate (2 * depth) ' ' ++ t ++
            concatAll (ts.map (fun u =>
              sepStr mode (List.replicate (2 * depth) ' ') ++ u))) := by
  simp only [ProtozeroToText, Option.map_eq_some'] at h
  obtain ⟨st', hst, hout⟩ := h
  obtain ⟨frs, hfrs, houtfr, -⟩ :=
    internal_frag_empty pool mode bs.length ty bs
      (List.replicate (2 * depth) ' ') true st' hst
  exact ⟨frs, hfrs, msgFrags_length pool mode _ ty bs _ frs hfrs,
    by rw [← hout, houtfr]⟩

/-- A one-message pool: `Msg` with field 1 declared `int32` named `foo`. -/
def fdFoo : FieldDescriptor := ⟨"foo".data, TYPE_INT32, false, []⟩

def descMsgFoo : ProtoDescriptor := ⟨"Msg".data, [(1, fdFoo)], []⟩

def poolFoo : DescriptorPool := ⟨[descMsgFoo]⟩

/-- C2 witness: the message `\x7b1: varint 150\x7d` renders as `foo: 150`,
one fragment for its one record. -/
theorem claimC2_witness :
    ∃ frs, msgFrags poolFoo NewLinesMode.kIncludeNewLines 4 "Msg".data
        [8, 150, 1] [] = some frs ∧
      frs.length = (tokenize [8, 150, 1]).1.length ∧
      "foo: 150".data = (match frs with
        | [] => ([] : List Char)
        | t :: ts =>
          [] ++ t ++ concatAll (ts.map (fun u =>
            sepStr NewLinesMode.kIncludeNewLines [] ++ u))) :=
  claimC2 poolFoo "Msg".data [8, 150, 1] NewLinesMode.kIncludeNewLines 0
    "foo: 150".data (by decide)

/-! ### Claim C9: indentation discipline -/

/-- C9. The indentation is stack-disciplined: `IncreaseIndents` appends
exactly two spaces, `DecreaseIndents` removes exactly the two it pushed,
both preserve evenness of the length, every successful render call
returns the indentation exactly as it received it (in either layout
mode), and a top-level call started at depth `d` ends with its
`2 * d`-space indentation intact. -/
theorem claimC9 :
    (∀ pool mode fuel ty bs st st',
      ProtozeroToTextInternal pool mode fuel ty bs st = some st' →
      st'.indents = st.indents) ∧
    (∀ ind : List Char, (IncreaseIndents ind).length = ind.length + 2) ∧
    (∀ ind : List Char, DecreaseIndents (IncreaseIndents ind) = ind) ∧
    (∀ ind : List Char, 2 ≤ ind.length →
      (DecreaseIndents ind).length = ind.length - 2) ∧
    (∀ ind : List Char, ind.length % 2 = 0 →
      (IncreaseIndents ind).length % 2 = 0 ∧
      (DecreaseIndents ind).length % 2 = 0) ∧
    (∀ pool ty bs mode depth st',
      ProtozeroToTextInternal pool mode (bs.length + 1) ty bs
        ⟨[], List.replicate (2 * depth) ' ', true⟩ = some st' →
      st'.indents = List.replicate (2 * depth) ' ' ∧
      st'.indents.length = 2 * depth) := by
  have part1 : ∀ pool mode fuel ty bs st st',
      ProtozeroToTextInternal pool mode fuel ty bs st = some st' →
      st'.indents = st.indents := by
    intro pool mode fuel ty bs st st' h
    obtain ⟨sout, sind, sok⟩ := st
    by_cases hne : sout = []
    · subst hne
      cases fuel with
      | zero => simp [ProtozeroToTextInternal] at h
      | succ k =>
        obtain ⟨-, -, -, hind⟩ :=
          internal_frag_empty pool mode k ty bs sind sok st' h
        exact hind
    · obtain ⟨-, -, -, hind⟩ :=
        internal_frag pool mode fuel ty bs ⟨sout, sind, sok⟩ st' hne h
      exact hind
  refine ⟨part1, IncreaseIndents_length, DecreaseIndents_IncreaseIndents,
    ?_, ?_, ?_⟩
  · intro ind h
    simp [DecreaseIndents]
  · intro ind h
    constructor
    · simp [IncreaseIndents]
      omega
    · simp [DecreaseIndents]
      omega
  · intro pool ty bs mode depth st' h
    have := part1 pool mode (bs.length + 1) ty bs _ st' h
    simp only at this
    rw [this]
    simp

/-- A two-message pool for the nesting scenarios: `Outer` has field 2
declared `message Inner` named `bar`; `Inner` has field 1 declared
`int32` named `baz`. -/
def fdBar : FieldDescriptor := ⟨"bar".data, TYPE_MESSAGE, false, "Inner".data⟩

def fdBaz : FieldDescriptor := ⟨"baz".data, TYPE_INT32, false, []⟩

def descOuter : ProtoDescriptor := ⟨"Outer".data, [(2, fdBar)], []⟩

def descInner : ProtoDescriptor := ⟨"Inner".data, [(1, fdBaz)], []⟩

def poolOuterInner : DescriptorPool := ⟨[descOuter, descInner]⟩

/-- C9 witness: rendering the nested message `\x7b2: \x7b1: 7\x7d\x7d`
from initial depth 2 returns the four-space indentation intact. -/
theorem claimC9_witness :
    (RState.mk "    bar: \x7b\n      baz: 7\n    \x7d".data "    ".data
        true).indents = (RState.mk [] "    ".data true).indents :=
  claimC9.1 poolOuterInner NewLinesMode.kIncludeNewLines 5 "Outer".data
    [0x12, 0x02, 0x08, 0x07] ⟨[], "    ".data, true⟩
    ⟨"    bar: \x7b\n      baz: 7\n    \x7d".data, "    ".data, true⟩
    (by decide)

/-! ### Claim C6 (corrected): separator placement -/

/-- C6 counterexample: in the spec's own scenario (`Outer.bar` containing
`Inner.baz = 7`, multiline, depth 0) the first field of the
freshly-recursed nested message is preceded by a newline plus the nested
indentation — the render is `bar: \x7b\n  baz: 7\n\x7d`, not the
`bar: \x7b  baz: 7\n\x7d` the claim's "current indentation with no
newline" wording demands. -/
theorem claimC6_counterexample :
    ProtozeroToText poolOuterInner "Outer".data [0x12, 0x02, 0x08, 0x07]
        NewLinesMode.kIncludeNewLines 0 =
      some "bar: \x7b\n  baz: 7\n\x7d".data ∧
    ProtozeroToText poolOuterInner "Outer".data [0x12, 0x02, 0x08, 0x07]
        NewLinesMode.kIncludeNewLines 0 ≠
      some "bar: \x7b  baz: 7\n\x7d".data :=
  ⟨by decide, by decide⟩

/-- C6 (amended).  A field is preceded by a separator — newline plus the
current indentation in multi-line mode, a space plus the current
indentation in compact mode — exactly when the shared output buffer is
non-empty at that point, i.e. for every field except the very first one
emitted by the whole top-level call; that first field is preceded by the
current indentation alone.  In particular every field of a nested
message, including its first, is preceded by the full separator, because
the buffer already holds the parent's `name: \x7b` text (the claim's
"first nested field has no newline" wording is refuted by
`claimC6_counterexample`). -/
theorem claimC6 :
    (∀ ind : List Char,
      sepStr NewLinesMode.kIncludeNewLines ind = '\n' :: ind ∧
      sepStr NewLinesMode.kSkipNewLines ind = ' ' :: ind) ∧
    (∀ pool mode fuel ty bs st st', st.output ≠ [] →
      ProtozeroToTextInternal pool mode fuel ty bs st = some st' →
      ∃ frs, msgFrags pool mode fuel ty bs st.indents = some frs ∧
        st'.output = st.output ++
          concatAll (frs.map (fun t => sepStr mode st.indents ++ t))) ∧
    (∀ pool mode fuel ty bs ind ok st',
      ProtozeroToTextInternal pool mode (fuel + 1) ty bs ⟨[], ind, ok⟩ =
        some st' →
      ∃ frs, msgFrags pool mode (fuel + 1) ty bs ind = some frs ∧
        st'.output = (match frs with
          | [] => ([] : List Char)
          | t :: ts =>
            ind ++ t ++
              concatAll (ts.map (fun u => sepStr mode ind ++ u)))) := by
  refine ⟨fun ind => ⟨rfl, rfl⟩, ?_, ?_⟩
  · intro pool mode fuel ty bs st st' hne h
    obtain ⟨frs, hfrs, hout, -⟩ :=
      internal_frag pool mode fuel ty bs st st' hne h
    exact ⟨frs, hfrs, hout⟩
  · intro pool mode fuel ty bs ind ok st' h
    obtain ⟨frs, hfrs, hout, -⟩ :=
      internal_frag_empty pool mode fuel ty bs ind ok st' h
    exact ⟨frs, hfrs, hout⟩

/-- C6 witness: rendering `Inner` into a non-empty buffer (`x`, as inside
a nested message) prefixes the separator `'\n' :: indents` before its
first field. -/
theorem claimC6_witness :
    ∃ frs, msgFrags poolOuterInner NewLinesMode.kIncludeNewLines 3
        "Inner".data [0x08, 0x07] "  ".data = some frs ∧
      (RState.mk "x\n  baz: 7".data "  ".data true).output =
        "x".data ++ concatAll (frs.map (fun t =>
          sepStr NewLinesMode.kIncludeNewLines "  ".data ++ t)) :=
  claimC6.2.1 poolOuterInner NewLinesMode.kIncludeNewLines 3 "Inner".data
    [0x08, 0x07] ⟨"x".data, "  ".data, true⟩
    ⟨"x\n  baz: 7".data, "  ".data, true⟩ (by decide) (by decide)

/-! ### Claim C4 (corrected): leftover bytes are only a debug assertion

The lemmas below show that a byte span with leftover bytes renders to
exactly the text of its well-formed prefix — the prefix ending at the
last complete record — so the leftover reaches nothing but the
debug-only assertion flag. -/

theorem readVarint_decomp :
    ∀ (bs : List Nat) (v : Nat) (rest : List Nat),
      readVarint bs = some (v, rest) →
      ∃ c, c ≠ [] ∧ bs = c ++ rest ∧
        ∀ s, readVarint (c ++ s) = some (v, s) := by
  intro bs
  induction bs with
  | nil => intro v rest h; simp [readVarint] at h
  | cons b tl ih =>
    intro v rest h
    by_cases hb : b < 128
    · simp only [readVarint, if_pos hb, Option.some.injEq,
        Prod.mk.injEq] at h
      obtain ⟨hv, hr⟩ := h
      subst hv
      subst hr
      exact ⟨[b], by simp, rfl, fun s => by simp [readVarint, hb]⟩
    · simp only [readVarint, if_neg hb] at h
      cases hrec : readVarint tl with
      | none => rw [hrec] at h; cases h
      | some p =>
        obtain ⟨v2, rest2⟩ := p
        rw [hrec] at h
        simp only [Option.some.injEq, Prod.mk.injEq] at h
        obtain ⟨hv, hr⟩ := h
        obtain ⟨c, hcne, htl, hall⟩ := ih v2 rest2 hrec
        subst hr
        refine ⟨b :: c, by simp, by simp [htl], fun s => ?_⟩
        simp only [List.cons_append, readVarint, if_neg hb, List.append_eq,
          hall s]
        rw [← hv]

theorem readLE_decomp :
    ∀ (k : Nat) (bs : List Nat) (v : Nat) (rest : List Nat),
      readLE k bs = some (v, rest) →
      ∃ c, bs = c ++ rest ∧ ∀ s, readLE k (c ++ s) = some (v, s) := by
  intro k
  induction k with
  | zero =>
    intro bs v rest h
    simp only [readLE, Option.some.injEq, Prod.mk.injEq] at h
    obtain ⟨hv, hr⟩ := h
    subst hv
    subst hr
    exact ⟨[], rfl, fun s => by simp [readLE]⟩
  | succ k ih =>
    intro bs v rest h
    cases bs with
    | nil => simp [readLE] at h
    | cons b tl =>
      simp only [readLE] at h
      cases hrec : readLE k tl with
      | none => rw [hrec] at h; cases h
      | some p =>
        obtain ⟨v2, rest2⟩ := p
        rw [hrec] at h
        simp only [Option.some.injEq, Prod.mk.injEq] at h
        obtain ⟨hv, hr⟩ := h
        obtain ⟨c, htl, hall⟩ := ih tl v2 rest2 hrec
        subst hr
        refine ⟨b :: c, by simp [htl], fun s => ?_⟩
        simp only [List.cons_append, readLE, List.append_eq, hall s]
        rw [← hv]

theorem ReadField_decomp (bs : List Nat) (f : Field) (rest : List Nat)
    (h : ReadField bs = some (f, rest)) :
    ∃ c, c ≠ [] ∧ bs = c ++ rest ∧
      ∀ s, ReadField (c ++ s) = some (f, s) := by
  unfold ReadField at h
  cases hkey : readVarint bs with
  | none => rw [hkey] at h; cases h
  | some p =>
    obtain ⟨key, rest1⟩ := p
    rw [hkey] at h
    dsimp only at h
    obtain ⟨c1, hc1ne, hbs1, hall1⟩ := readVarint_decomp bs key rest1 hkey
    by_cases hid : key / 8 = 0
    · rw [if_pos hid] at h; cases h
    · rw [if_neg hid] at h
      by_cases hw0 : key % 8 = 0
      · rw [if_pos hw0] at h
        cases hv : readVarint rest1 with
        | none => rw [hv] at h; cases h
        | some q =>
          obtain ⟨v, rest2⟩ := q
          rw [hv] at h
          simp only [Option.some.injEq, Prod.mk.injEq] at h
          obtain ⟨hf, hr⟩ := h
          obtain ⟨c2, -, hr1, hall2⟩ := readVarint_decomp rest1 v rest2 hv
          subst hr
          refine ⟨c1 ++ c2, by simp [hc1ne],
            by rw [hbs1, hr1, List.append_assoc], fun s => ?_⟩
          rw [List.append_assoc]
          unfold ReadField
          rw [hall1 (c2 ++ s)]
          dsimp only
          rw [if_neg hid, if_pos hw0, hall2 s]
          dsimp only
          rw [hf]
      · rw [if_neg hw0] at h
        by_cases hw1 : key % 8 = 1
        · rw [if_pos hw1] at h
          cases hv : readLE 8 rest1 with
          | none => rw [hv] at h; cases h
          | some q =>
            obtain ⟨v, rest2⟩ := q
            rw [hv] at h
            simp only [Option.some.injEq, Prod.mk.injEq] at h
            obtain ⟨hf, hr⟩ := h
            obtain ⟨c2, hr1, hall2⟩ := readLE_decomp 8 rest1 v rest2 hv
            subst hr
            refine ⟨c1 ++ c2, by simp [hc1ne],
              by rw [hbs1, hr1, List.append_assoc], fun s => ?_⟩
            rw [List.append_assoc]
            unfold ReadField
            rw [hall1 (c2 ++ s)]
            dsimp only
            rw [if_neg hid, if_neg hw0, if_pos hw1, hall2 s]
            dsimp only
            rw [hf]
        · rw [if_neg hw1] at h
          by_cases hw2 : key % 8 = 2
          · rw [if_pos hw2] at h
            cases hv : readVarint rest1 with
            | none => rw [hv] at h; cases h
            | some q =>
              obtain ⟨len, rest2⟩ := q
              rw [hv] at h
              dsimp only at h
              by_cases hlen : len ≤ rest2.length
              · rw [if_pos hlen] at h
                simp only [Option.some.injEq, Prod.mk.injEq] at h
                obtain ⟨hf, hr⟩ := h
                obtain ⟨c2, -, hr1, hall2⟩ :=
                  readVarint_decomp rest1 len rest2 hv
                have hc3len : (rest2.take len).length = len := by
                  simp [List.length_take]
                  omega
                have hsplit : rest2 = rest2.take len ++ rest := by
                  rw [← hr]
                  exact (List.take_append_drop len rest2).symm
                refine ⟨c1 ++ (c2 ++ rest2.take len), by simp [hc1ne],
                  ?_, fun s => ?_⟩
                · rw [hbs1, hr1, hsplit]
                  simp [List.append_assoc, List.take_left' hc3len]
                · rw [List.append_assoc, List.append_assoc]
                  unfold ReadField
                  rw [hall1 (c2 ++ (rest2.take len ++ s))]
                  dsimp only
                  rw [if_neg hid, if_neg hw0, if_neg hw1, if_pos hw2,
                    hall2 (rest2.take len ++ s)]
                  dsimp only
                  have hle : len ≤ (rest2.take len ++ s).length := by
                    simp [hc3len]
                  rw [if_pos hle, List.take_left' hc3len,
                    List.drop_left' hc3len, hf]
              · rw [if_neg hlen] at h; cases h
          · rw [if_neg hw2] at h
            by_cases hw5 : key % 8 = 5
            · rw [if_pos hw5] at h
              cases hv : readLE 4 rest1 with
              | none => rw [hv] at h; cases h
              | some q =>
                obtain ⟨v, rest2⟩ := q
                rw [hv] at h
                simp only [Option.some.injEq, Prod.mk.injEq] at h
                obtain ⟨hf, hr⟩ := h
                obtain ⟨c2, hr1, hall2⟩ := readLE_decomp 4 rest1 v rest2 hv
                subst hr
                refine ⟨c1 ++ c2, by simp [hc1ne],
                  by rw [hbs1, hr1, List.append_assoc], fun s => ?_⟩
                rw [List.append_assoc]
                unfold ReadField
                rw [hall1 (c2 ++ s)]
                dsimp only
                rw [if_neg hid, if_neg hw0, if_neg hw1, if_neg hw2,
                  if_pos hw5, hall2 s]
                dsimp only
                rw [hf]
            · rw [if_neg hw5] at h; cases h

theorem ReadField_consumes (bs : List Nat) (f : Field) (rest : List Nat)
    (h : ReadField bs = some (f, rest)) : rest.length < bs.length := by
  obtain ⟨c, hne, heq, -⟩ := ReadField_decomp bs f rest h
  have : 0 < c.length := List.length_pos.mpr hne
  rw [heq, List.length_append]
  omega

theorem tokenizeAux_fuel :
    ∀ (fuel1 fuel2 : Nat) (bs : List Nat), bs.length < fuel1 →
      bs.length < fuel2 → tokenizeAux fuel1 bs = tokenizeAux fuel2 bs := by
  intro fuel1
  induction fuel1 with
  | zero => intro fuel2 bs h1 _; omega
  | succ k ih =>
    intro fuel2 bs h1 h2
    cases fuel2 with
    | zero => omega
    | succ m =>
      simp only [tokenizeAux]
      cases hrf : ReadField bs with
      | none => rfl
      | some p =>
        obtain ⟨f, rest⟩ := p
        have hlen := ReadField_consumes bs f rest hrf
        dsimp only
        rw [ih m rest (by omega) (by omega)]

theorem tokenizeAux_prefix :
    ∀ (fuel : Nat) (bs : List Nat),
      ∃ c, bs = c ++ (tokenizeAux fuel bs).2 ∧
        tokenizeAux fuel c = ((tokenizeAux fuel bs).1, []) := by
  intro fuel
  induction fuel with
  | zero => intro bs; exact ⟨[], rfl, rfl⟩
  | succ k ih =>
    intro bs
    cases hrf : ReadField bs with
    | none =>
      have hnil : ReadField ([] : List Nat) = none := rfl
      exact ⟨[], by simp [tokenizeAux, hrf],
        by simp [tokenizeAux, hrf, hnil]⟩
    | some p =>
      obtain ⟨f, rest⟩ := p
      obtain ⟨c1, -, hbs, hall⟩ := ReadField_decomp bs f rest hrf
      obtain ⟨c2, hrest, hc2⟩ := ih rest
      rcases htk : tokenizeAux k rest with ⟨rs2, lv⟩
      rw [htk] at hrest hc2
      have hbs2 : tokenizeAux (k + 1) bs = (f :: rs2, lv) := by
        simp [tokenizeAux, hrf, htk]
      refine ⟨c1 ++ c2, ?_, ?_⟩
      · rw [hbs2, hbs, hrest]
        simp [List.append_assoc]
      · rw [hbs2]
        simp [tokenizeAux, hall c2, hc2]

theorem tokenize_prefix (bs : List Nat) :
    ∃ c, bs = c ++ (tokenize bs).2 ∧
      tokenize c = ((tokenize bs).1, []) := by
  obtain ⟨c, hbs, hc⟩ := tokenizeAux_prefix (bs.length + 1) bs
  have hclen : c.length ≤ bs.length := by
    have := congrArg List.length hbs
    simp only [List.length_append] at this
    omega
  refine ⟨c, hbs, ?_⟩
  unfold tokenize
  rw [tokenizeAux_fuel (c.length + 1) (bs.length + 1) c (by omega)
    (by omega)]
  exact hc

/-- C4 counterexample: the submessage field of
`[0x12, 0x01, 0x08]` declares length 1 but its payload `[0x08]` is a
truncated record, so the nested tokenizer stops with the byte left over —
yet the render call returns the truncated-but-valid text `bar: \x7b\n\x7d`
instead of reporting a decode fault to the caller. -/
theorem claimC4_counterexample :
    ProtozeroToText poolOuterInner "Outer".data [0x12, 0x01, 0x08]
        NewLinesMode.kIncludeNewLines 0 = some "bar: \x7b\n\x7d".data ∧
    (tokenize [0x08]).2 = [0x08] :=
  ⟨by decide, by decide⟩

/-- C4 (amended).  For every byte span in which bytes remain after the
tokenizer can produce no further complete `WireRecord`, the render call
does not report a decode fault to the caller: it produces exactly what it
would produce for the well-formed prefix `c` that ends at the last
complete record (truncated-but-valid text — in particular it succeeds on
the leftover-carrying span exactly when it succeeds on `c`, with the same
text), and the leftover reaches only the debug-only assertion
`PERFETTO_DCHECK(decoder.bytes_left() == 0)`: any successful render of
such a span carries `dcheckOk = false`. -/
theorem claimC4 (pool : DescriptorPool) (mode : NewLinesMode) (fuel : Nat)
    (ty : List Char) (bs : List Nat) (st : RState)
    (hlv : (tokenize bs).2 ≠ []) :
    ∃ c, bs = c ++ (tokenize bs).2 ∧
      tokenize c = ((tokenize bs).1, []) ∧
      (ProtozeroToTextInternal pool mode fuel ty bs st).map RState.output =
        (ProtozeroToTextInternal pool mode fuel ty c st).map
          RState.output ∧
      ∀ st', ProtozeroToTextInternal pool mode fuel ty bs st = some st' →
        st'.dcheckOk = false := by
  obtain ⟨c, hbs, hc⟩ := tokenize_prefix bs
  refine ⟨c, hbs, hc, ?_, ?_⟩
  · cases fuel with
    | zero => simp [ProtozeroToTextInternal]
    | succ k =>
      simp only [ProtozeroToTextInternal]
      cases hidx : pool.FindDescriptorIdx ty with
      | none => rfl
      | some idx =>
        dsimp only
        cases hdesc : pool.descriptors[idx]? with
        | none => rfl
        | some desc =>
          dsimp only
          rw [hc]
          rcases htk : tokenize bs with ⟨rs, lv⟩
          dsimp only
          cases renderFields (ProtozeroToTextInternal pool mode k) pool
              desc mode rs st with
          | none => rfl
          | some st2 => rfl
  · intro st' h
    cases fuel with
    | zero => simp [ProtozeroToTextInternal] at h
    | succ k =>
      simp only [ProtozeroToTextInternal] at h
      cases hidx : pool.FindDescriptorIdx ty with
      | none => rw [hidx] at h; cases h
      | some idx =>
        rw [hidx] at h
        dsimp only at h
        cases hdesc : pool.descriptors[idx]? with
        | none => rw [hdesc] at h; cases h
        | some desc =>
          rw [hdesc] at h
          dsimp only at h
          rcases htk : tokenize bs with ⟨rs, lv⟩
          rw [htk] at h hlv
          dsimp only at h hlv
          cases hrf : renderFields (ProtozeroToTextInternal pool mode k)
              pool desc mode rs st with
          | none => rw [hrf] at h; cases h
          | some st2 =>
            rw [hrf] at h
            simp only [Option.some.injEq] at h
            rw [← h]
            cases lv with
            | nil => exact absurd rfl hlv
            | cons a as => simp

/-- C4 witness: the one-byte span `[0x08]` (a truncated varint record, so
all of it is leftover) applied to the amended statement — rendering it as
an `Inner` body into a non-empty buffer returns the same text as the
empty well-formed prefix, with the assertion flag forced to `false`. -/
theorem claimC4_witness :
    ∃ c, [0x08] = c ++ (tokenize [0x08]).2 ∧
      tokenize c = ((tokenize [0x08]).1, []) ∧
      (ProtozeroToTextInternal poolOuterInner NewLinesMode.kIncludeNewLines
          3 "Inner".data [0x08]
          ⟨"x".data, "  ".data, true⟩).map RState.output =
        (ProtozeroToTextInternal poolOuterInner
          NewLinesMode.kIncludeNewLines 3 "Inner".data c
          ⟨"x".data, "  ".data, true⟩).map RState.output ∧
      ∀ st', ProtozeroToTextInternal poolOuterInner
          NewLinesMode.kIncludeNewLines 3 "Inner".data [0x08]
          ⟨"x".data, "  ".data, true⟩ = some st' →
        st'.dcheckOk = false :=
  claimC4 poolOuterInner NewLinesMode.kIncludeNewLines 3 "Inner".data
    [0x08] ⟨"x".data, "  ".data, true⟩ (by decide)


end ProtozeroText
